import Mathlib

/-!
Verification of the CLinear-Code webhook server against its design document.

The development shallowly embeds the glue logic of the server: the JSON
value model used by the Node runtime (`JSON.parse` / `JSON.stringify`),
the HMAC-SHA256 signature check of the webhook middleware, the payload
classifier, the context fetcher, the repository-reference resolution, the
instruction extraction, the task executors (local and sprites providers)
and the console-output result parser.  External effects (the Linear API,
child processes, the file system) appear as explicit inputs describing
the outcome of each interaction; everything else is translated directly
from the TypeScript sources.
-/

namespace CLinear

/-- Whitespace test matching the JS regex class `\s` and `String.trim`,
restricted to the ASCII whitespace characters (space, tab, line feed,
vertical tab, form feed, carriage return). -/
def isJsWs (c : Char) : Bool :=
  c = ' ' || c = '\t' || c = '\n' || c = '\r' || c = '\x0b' || c = '\x0c'

/-- Drop trailing whitespace from a character list. -/
def dropTrailingWs (cs : List Char) : List Char :=
  (cs.reverse.dropWhile isJsWs).reverse

/-- Trim leading and trailing whitespace, as JS `String.prototype.trim`
and as the `\s*` groups surrounding a regex capture. -/
def trimWsChars (cs : List Char) : List Char :=
  dropTrailingWs (cs.dropWhile isJsWs)

/-- String version of `trimWsChars`. -/
def trimWs (s : String) : String := String.mk (trimWsChars s.data)

/-- Index of the first occurrence of `needle` in the haystack, the
search order used by JS `String.prototype.match` for a literal. -/
def findSubstrIdx (needle : List Char) : List Char → Option Nat
  | [] => if needle = [] then some 0 else none
  | c :: rest =>
    if needle.isPrefixOf (c :: rest) then some 0
    else (findSubstrIdx needle rest).map (· + 1)

/-- Substring containment, as JS `String.prototype.includes`. -/
def containsSubstr (hay sub : String) : Bool :=
  (findSubstrIdx sub.data hay.data).isSome

/-- Lower-case an ASCII letter; models the case folding performed by a
case-insensitive JS regex on ASCII input. -/
def asciiLower (c : Char) : Char :=
  if 'A' ≤ c ∧ c ≤ 'Z' then Char.ofNat (c.toNat + 32) else c

/-- JS `String.prototype.slice` with a negative start: the last `n`
characters of the string. -/
def sliceLast (s : String) (n : Nat) : String :=
  String.mk (s.data.drop (s.data.length - n))

/-! ## JSON values

Model of the JSON data handled by the Node runtime.  Numbers are
restricted to integer numerals; every JSON literal appearing in the
sources and in the test inputs is covered by this fragment. -/

mutual

/-- A JSON value.  Object fields keep their document order, matching the
property order of a JS object built by `JSON.parse`. -/
inductive Json where
  | jnull : Json
  | jbool : Bool → Json
  | jnum : Int → Json
  | jstr : String → Json
  | jarr : JsonItems → Json
  | jobj : JsonFields → Json

/-- The element list of a JSON array. -/
inductive JsonItems where
  | nil : JsonItems
  | cons : Json → JsonItems → JsonItems

/-- The field list of a JSON object, in document order. -/
inductive JsonFields where
  | nil : JsonFields
  | cons : String → Json → JsonFields → JsonFields

end

deriving instance DecidableEq for Json

/-- Build an array value from a list of elements. -/
def JsonItems.ofList : List Json → JsonItems
  | [] => .nil
  | x :: xs => .cons x (JsonItems.ofList xs)

/-- Build a field list from a list of key-value pairs. -/
def JsonFields.ofList : List (String × Json) → JsonFields
  | [] => .nil
  | (k, v) :: fs => .cons k v (JsonFields.ofList fs)

/-- Array value from a plain list. -/
def Json.arrOf (xs : List Json) : Json := .jarr (JsonItems.ofList xs)

/-- Object value from a plain association list. -/
def Json.objOf (fs : List (String × Json)) : Json := .jobj (JsonFields.ofList fs)

/-- Lower-case hexadecimal digit. -/
def hexDigit (n : Nat) : Char :=
  if n < 10 then Char.ofNat (48 + n) else Char.ofNat (87 + n)

/-- Escape one character as inside a JS `JSON.stringify` string literal. -/
def escapeJsonChar (c : Char) : List Char :=
  if c = '"' then ['\\', '"']
  else if c = '\\' then ['\\', '\\']
  else if c = '\n' then ['\\', 'n']
  else if c = '\t' then ['\\', 't']
  else if c = '\r' then ['\\', 'r']
  else if c = '\x08' then ['\\', 'b']
  else if c = '\x0c' then ['\\', 'f']
  else if c.toNat < 0x20 then
    ['\\', 'u', '0', '0', hexDigit (c.toNat / 16), hexDigit (c.toNat % 16)]
  else [c]

/-- A quoted and escaped JSON string literal. -/
def jsonQuote (s : String) : List Char :=
  '"' :: s.data.foldr (fun c acc => escapeJsonChar c ++ acc) [] ++ ['"']

mutual

/-- Compact serialization of a JSON value, as JS `JSON.stringify` with no
spacing argument. -/
def Json.stringifyChars : Json → List Char
  | .jnull => ['n', 'u', 'l', 'l']
  | .jbool true => ['t', 'r', 'u', 'e']
  | .jbool false => ['f', 'a', 'l', 's', 'e']
  | .jnum n => (toString n).data
  | .jstr s => jsonQuote s
  | .jarr xs => '[' :: Json.stringifyArr xs ++ [']']
  | .jobj fs => '\x7b' :: Json.stringifyFields fs ++ ['\x7d']

/-- Comma-separated serialization of array elements. -/
def Json.stringifyArr : JsonItems → List Char
  | .nil => []
  | .cons x .nil => Json.stringifyChars x
  | .cons x (.cons y rest) =>
    Json.stringifyChars x ++ ',' :: Json.stringifyArr (.cons y rest)

/-- Comma-separated serialization of object fields. -/
def Json.stringifyFields : JsonFields → List Char
  | .nil => []
  | .cons k v .nil => jsonQuote k ++ ':' :: Json.stringifyChars v
  | .cons k v (.cons k2 v2 rest) =>
    jsonQuote k ++ ':' :: Json.stringifyChars v ++ ',' :: Json.stringifyFields (.cons k2 v2 rest)

end

/-- String form of `Json.stringifyChars`, the model of `JSON.stringify`. -/
def jsonStringify (j : Json) : String := String.mk j.stringifyChars

/-- Value of a hexadecimal digit character. -/
def hexVal (c : Char) : Option Nat :=
  if '0' ≤ c ∧ c ≤ '9' then some (c.toNat - 48)
  else if 'a' ≤ c ∧ c ≤ 'f' then some (c.toNat - 87)
  else if 'A' ≤ c ∧ c ≤ 'F' then some (c.toNat - 55)
  else none

/-- Decode a single-character JSON string escape. -/
def escChar (e : Char) : Option Char :=
  if e = '"' then some '"'
  else if e = '\\' then some '\\'
  else if e = '/' then some '/'
  else if e = 'b' then some '\x08'
  else if e = 'f' then some '\x0c'
  else if e = 'n' then some '\n'
  else if e = 'r' then some '\r'
  else if e = 't' then some '\t'
  else none

/-- Parse the body of a JSON string literal after the opening quote,
returning the decoded characters and the remaining input. -/
def parseStrBody : List Char → Option (List Char × List Char)
  | [] => none
  | '"' :: rest => some ([], rest)
  | '\\' :: 'u' :: h1 :: h2 :: h3 :: h4 :: rest =>
    match hexVal h1, hexVal h2, hexVal h3, hexVal h4 with
    | some a, some b, some c, some d =>
      match parseStrBody rest with
      | some (chars, tl) =>
        some (Char.ofNat (((a * 16 + b) * 16 + c) * 16 + d) :: chars, tl)
      | none => none
    | _, _, _, _ => none
  | '\\' :: e :: rest =>
    match escChar e with
    | some d =>
      match parseStrBody rest with
      | some (chars, tl) => some (d :: chars, tl)
      | none => none
    | none => none
  | c :: rest =>
    if c.toNat < 0x20 then none
    else
      match parseStrBody rest with
      | some (chars, tl) => some (c :: chars, tl)
      | none => none

/-- Numeric value of a decimal digit character. -/
def digitVal (c : Char) : Option Nat :=
  if '0' ≤ c ∧ c ≤ '9' then some (c.toNat - 48) else none

/-- Split a maximal run of decimal digits off the front of the input. -/
def parseDigits : List Char → List Nat × List Char
  | [] => ([], [])
  | c :: rest =>
    match digitVal c with
    | some d =>
      let (ds, tl) := parseDigits rest
      (d :: ds, tl)
    | none => ([], c :: rest)

/-- Decimal value of a digit list. -/
def digitsToNat (ds : List Nat) : Nat := ds.foldl (fun acc d => acc * 10 + d) 0

/-- Parse a JSON integer numeral (optional minus sign, no leading zeros).
Fraction and exponent continuations are outside the integer fragment of
the model and are rejected. -/
def parseNumber (cs : List Char) : Option (Json × List Char) :=
  let signSplit : Bool × List Char :=
    match cs with
    | '-' :: tl => (true, tl)
    | _ => (false, cs)
  let neg := signSplit.1
  let cs1 := signSplit.2
  match cs1 with
  | [] => none
  | c :: _ =>
    match digitVal c with
    | none => none
    | some _ =>
      let (ds, tl) := parseDigits cs1
      if ds.length > 1 ∧ ds.headD 0 = 0 then none
      else
        match tl with
        | '.' :: _ => none
        | 'e' :: _ => none
        | 'E' :: _ => none
        | _ =>
          let n : Int := Int.ofNat (digitsToNat ds)
          some (.jnum (if neg then -n else n), tl)

mutual

/-- Fueled recursive-descent parser for a JSON value, the model of
`JSON.parse`.  Returns the value and the unconsumed input. -/
def parseJsonVal : Nat → List Char → Option (Json × List Char)
  | 0, _ => none
  | fuel + 1, cs =>
    match cs.dropWhile isJsWs with
    | [] => none
    | 'n' :: rest =>
      if rest.take 3 = ['u', 'l', 'l'] then some (.jnull, rest.drop 3) else none
    | 't' :: rest =>
      if rest.take 3 = ['r', 'u', 'e'] then some (.jbool true, rest.drop 3) else none
    | 'f' :: rest =>
      if rest.take 4 = ['a', 'l', 's', 'e'] then some (.jbool false, rest.drop 4) else none
    | '"' :: rest =>
      match parseStrBody rest with
      | some (chars, tl) => some (.jstr (String.mk chars), tl)
      | none => none
    | '[' :: rest =>
      match rest.dropWhile isJsWs with
      | ']' :: tl => some (.jarr .nil, tl)
      | _ =>
        match parseArrItems fuel rest with
        | some (items, tl) => some (.jarr items, tl)
        | none => none
    | '\x7b' :: rest =>
      match rest.dropWhile isJsWs with
      | '\x7d' :: tl => some (.jobj .nil, tl)
      | _ =>
        match parseObjItems fuel rest with
        | some (fs, tl) => some (.jobj fs, tl)
        | none => none
    | cs2 => parseNumber cs2

/-- Parse the element list of a non-empty JSON array after `[`. -/
def parseArrItems : Nat → List Char → Option (JsonItems × List Char)
  | 0, _ => none
  | fuel + 1, cs =>
    match parseJsonVal fuel cs with
    | none => none
    | some (v, tl) =>
      match tl.dropWhile isJsWs with
      | ',' :: tl2 =>
        match parseArrItems fuel tl2 with
        | some (items, tl3) => some (.cons v items, tl3)
        | none => none
      | ']' :: tl2 => some (.cons v .nil, tl2)
      | _ => none

/-- Parse the field list of a non-empty JSON object after the opening
brace. -/
def parseObjItems : Nat → List Char → Option (JsonFields × List Char)
  | 0, _ => none
  | fuel + 1, cs =>
    match cs.dropWhile isJsWs with
    | '"' :: rest =>
      match parseStrBody rest with
      | none => none
      | some (kchars, tl) =>
        match tl.dropWhile isJsWs with
        | ':' :: tl2 =>
          match parseJsonVal fuel tl2 with
          | none => none
          | some (v, tl3) =>
            match tl3.dropWhile isJsWs with
            | ',' :: tl4 =>
              match parseObjItems fuel tl4 with
              | some (fs, tl5) => some (.cons (String.mk kchars) v fs, tl5)
              | none => none
            | '\x7d' :: tl4 => some (.cons (String.mk kchars) v .nil, tl4)
            | _ => none
        | _ => none
    | _ => none

end

/-- Model of `JSON.parse`: parse a complete JSON document, allowing
surrounding whitespace only. -/
def jsonParse (s : String) : Option Json :=
  match parseJsonVal (s.length * 2 + 4) s.data with
  | some (v, tl) => if tl.dropWhile isJsWs = [] then some v else none
  | none => none

/-- Last binding of a key in a field list; on duplicate keys the last
assignment wins, as when `JSON.parse` builds a JS object. -/
def JsonFields.getLastVal (k : String) : JsonFields → Option Json
  | .nil => none
  | .cons key v tl =>
    match JsonFields.getLastVal k tl with
    | some r => some r
    | none => if key == k then some v else none

/-- Property access `obj[k]` on a parsed JSON value: `undefined`
(modelled as `none`) unless the value is an object carrying the key. -/
def jsonGetField (j : Json) (k : String) : Option Json :=
  match j with
  | .jobj fs => fs.getLastVal k
  | _ => none

/-- JS truthiness of a JSON value. -/
def jsTruthy : Json → Bool
  | .jnull => false
  | .jbool b => b
  | .jnum n => n != 0
  | .jstr s => s != ""
  | .jarr _ => true
  | .jobj _ => true

/-- JS truthiness of a possibly-undefined JSON value. -/
def jsTruthyOpt : Option Json → Bool
  | none => false
  | some v => jsTruthy v

/-! ## SHA-256 and HMAC

Executable model of Node's `crypto.createHmac('sha256', secret)` with
hexadecimal digest, operating on UTF-8 byte lists with 32-bit words as
naturals masked to `2 ^ 32`. -/

/-- Mask of a 32-bit word. -/
def u32mask : Nat := 4294967295

/-- Right rotation of a 32-bit word. -/
def rotr32 (n x : Nat) : Nat := ((x >>> n) ||| (x <<< (32 - n))) &&& u32mask

/-- SHA-256 round constants. -/
def shaK : List Nat :=
  [1116352408, 1899447441, 3049323471, 3921009573, 961987163,
   1508970993, 2453635748, 2870763221, 3624381080, 310598401,
   607225278, 1426881987, 1925078388, 2162078206, 2614888103,
   3248222580, 3835390401, 4022224774, 264347078, 604807628,
   770255983, 1249150122, 1555081692, 1996064986, 2554220882,
   2821834349, 2952996808, 3210313671, 3336571891, 3584528711,
   113926993, 338241895, 666307205, 773529912, 1294757372,
   1396182291, 1695183700, 1986661051, 2177026350, 2456956037,
   2730485921, 2820302411, 3259730800, 3345764771, 3516065817,
   3600352804, 4094571909, 275423344, 430227734, 506948616,
   659060556, 883997877, 958139571, 1322822218, 1537002063,
   1747873779, 1955562222, 2024104815, 2227730452, 2361852424,
   2428436474, 2756734187, 3204031479, 3329325298]

/-- SHA-256 initial hash state. -/
def shaH0 : List Nat :=
  [1779033703, 3144134277, 1013904242, 2773480762,
   1359893119, 2600822924, 528734635, 1541459225]

/-- Group bytes into big-endian 32-bit words. -/
def bytesToWords : List Nat → List Nat
  | b0 :: b1 :: b2 :: b3 :: rest =>
    (((b0 * 256 + b1) * 256 + b2) * 256 + b3) :: bytesToWords rest
  | _ => []

/-- SHA-256 sigma functions. -/
def ssig0 (x : Nat) : Nat := rotr32 7 x ^^^ rotr32 18 x ^^^ (x >>> 3)

/-- Second small sigma. -/
def ssig1 (x : Nat) : Nat := rotr32 17 x ^^^ rotr32 19 x ^^^ (x >>> 10)

/-- First big sigma. -/
def bsig0 (x : Nat) : Nat := rotr32 2 x ^^^ rotr32 13 x ^^^ rotr32 22 x

/-- Second big sigma. -/
def bsig1 (x : Nat) : Nat := rotr32 6 x ^^^ rotr32 11 x ^^^ rotr32 25 x

/-- Choice function. -/
def shaCh (e f g : Nat) : Nat := (e &&& f) ^^^ ((e ^^^ u32mask) &&& g)

/-- Majority function. -/
def shaMaj (a b c : Nat) : Nat := (a &&& b) ^^^ (a &&& c) ^^^ (b &&& c)

/-- Message schedule of one block: extend the 16 block words to 64. -/
def shaSchedule (block : List Nat) : Array Nat :=
  let w0 := (bytesToWords block).toArray
  (List.range 48).foldl
    (fun w _ =>
      let i := w.size
      let v := (ssig1 (w.getD (i - 2) 0) + w.getD (i - 7) 0 +
                ssig0 (w.getD (i - 15) 0) + w.getD (i - 16) 0) &&& u32mask
      w.push v)
    w0

/-- One SHA-256 compression step over a 64-byte block. -/
def compressBlock (h : List Nat) (block : List Nat) : List Nat :=
  let w := shaSchedule block
  let k := shaK.toArray
  let final :=
    (List.range 64).foldl
      (fun st i =>
        match st with
        | [a, b, c, d, e, f, g, hh] =>
          let t1 := (hh + bsig1 e + shaCh e f g + k.getD i 0 + w.getD i 0) &&& u32mask
          let t2 := (bsig0 a + shaMaj a b c) &&& u32mask
          [(t1 + t2) &&& u32mask, a, b, c, (d + t1) &&& u32mask, e, f, g]
        | other => other)
      h
  List.zipWith (fun x y => (x + y) &&& u32mask) h final

/-- Big-endian 8-byte encoding of a length in bits. -/
def be64 (n : Nat) : List Nat :=
  (List.range 8).map (fun i => (n >>> ((7 - i) * 8)) &&& 255)

/-- Big-endian 4-byte encoding of a word. -/
def be32 (n : Nat) : List Nat :=
  [(n >>> 24) &&& 255, (n >>> 16) &&& 255, (n >>> 8) &&& 255, n &&& 255]

/-- SHA-256 padding: a `0x80` byte, zeros to 56 mod 64, and the message
length in bits as eight big-endian bytes. -/
def sha256Pad (msg : List Nat) : List Nat :=
  let len := msg.length
  let k := (55 + 64 - (len % 64)) % 64
  msg ++ 0x80 :: List.replicate k 0 ++ be64 (len * 8)

/-- Fold the compression function over consecutive 64-byte blocks. -/
def sha256Blocks : Nat → List Nat → List Nat → List Nat
  | 0, h, _ => h
  | _, h, [] => h
  | fuel + 1, h, bs => sha256Blocks fuel (compressBlock h (bs.take 64)) (bs.drop 64)

/-- SHA-256 digest of a byte list. -/
def sha256 (msg : List Nat) : List Nat :=
  let padded := sha256Pad msg
  let hFinal := sha256Blocks (padded.length / 64 + 1) shaH0 padded
  hFinal.foldr (fun wd acc => be32 wd ++ acc) []

/-- HMAC-SHA256 of a message under a key (block size 64). -/
def hmacSha256 (key msg : List Nat) : List Nat :=
  let k0 := if key.length > 64 then sha256 key else key
  let kpad := k0 ++ List.replicate (64 - k0.length) 0
  let ipad := kpad.map (· ^^^ 0x36)
  let opad := kpad.map (· ^^^ 0x5c)
  sha256 (opad ++ sha256 (ipad ++ msg))

/-- UTF-8 encoding of one character. -/
def charUtf8 (c : Char) : List Nat :=
  let n := c.toNat
  if n < 0x80 then [n]
  else if n < 0x800 then [0xc0 ||| (n >>> 6), 0x80 ||| (n &&& 0x3f)]
  else if n < 0x10000 then
    [0xe0 ||| (n >>> 12), 0x80 ||| ((n >>> 6) &&& 0x3f), 0x80 ||| (n &&& 0x3f)]
  else
    [0xf0 ||| (n >>> 18), 0x80 ||| ((n >>> 12) &&& 0x3f),
     0x80 ||| ((n >>> 6) &&& 0x3f), 0x80 ||| (n &&& 0x3f)]

/-- UTF-8 bytes of a string, as Node's default encoding for
`hmac.update`. -/
def utf8Bytes (s : String) : List Nat :=
  s.data.foldr (fun c acc => charUtf8 c ++ acc) []

/-- Lower-case hexadecimal rendering of a byte list, as
`hmac.digest('hex')`. -/
def bytesToHex (bs : List Nat) : String :=
  String.mk (bs.foldr (fun b acc => hexDigit (b / 16) :: hexDigit (b % 16) :: acc) [])

/-- Hex HMAC-SHA256 of a message string under a secret string, the model
of `crypto.createHmac('sha256', secret).update(body).digest('hex')`. -/
def hmacHexStr (secret msg : String) : String :=
  bytesToHex (hmacSha256 (utf8Bytes secret) (utf8Bytes msg))

/-! ## Trigger mention and instruction extraction

Embeddings of `mentionsClaude` and `LinearApiClient.extractInstruction`
from `src/linear/webhook-handler.ts`. -/

/-- Index of the first case-insensitive occurrence of the mention token,
the match position of the regex `@claude` with the `i` flag. -/
def findCiMentionIdx (body : String) : Option Nat :=
  findSubstrIdx "@claude".data (body.data.map asciiLower)

/-- Embedding of `mentionsClaude`: the test of the regex `@claude` with
the `i` flag against the comment body. -/
def mentionsClaude (body : String) : Bool :=
  (findCiMentionIdx body).isSome

/-- Embedding of `extractInstruction`: capture of the regex
`@claude\s*([\s\S]*)` (case-insensitive) trimmed, with the whole body as
the fallback when the pattern is absent.  The capture is everything after
the first mention occurrence; the leading `\s*` group and the `.trim()`
call together trim the capture on both sides. -/
def extractInstruction (body : String) : String :=
  match findCiMentionIdx body with
  | some i => trimWs (String.mk (body.data.drop (i + 7)))
  | none => body

/-! ## Repository resolution

Embedding of `LinearApiClient.extractRepositoryInfo`.  The configured
default repository (`config.GITHUB_DEFAULT_REPO`) is passed explicitly. -/

/-- A resolved repository reference, as the `repository` field of
`IssueContext`. -/
structure RepoRef where
  url : String
  owner : String
  name : String
deriving DecidableEq

/-- Match of the description regex
`https?:\/\/github\.com\/([^\/\s]+)\/([^\/\s\)]+)` at the head of the
input: both captures are maximal nonempty runs of their character
classes, separated by a slash. -/
def matchGithubRepoAt (cs : List Char) : Option (String × String) :=
  let afterHost : Option (List Char) :=
    if "https://github.com/".data.isPrefixOf cs then some (cs.drop 19)
    else if "http://github.com/".data.isPrefixOf cs then some (cs.drop 18)
    else none
  match afterHost with
  | none => none
  | some rest =>
    let c1 := rest.takeWhile (fun c => c != '/' && !isJsWs c)
    if c1.isEmpty then none
    else
      match rest.drop c1.length with
      | '/' :: rest2 =>
        let c2 := rest2.takeWhile (fun c => c != '/' && !isJsWs c && c != ')')
        if c2.isEmpty then none else some (String.mk c1, String.mk c2)
      | _ => none

/-- Leftmost match of the description regex over the whole input. -/
def githubUrlFindAux : List Char → Option (String × String)
  | [] => none
  | c :: rest =>
    match matchGithubRepoAt (c :: rest) with
    | some r => some r
    | none => githubUrlFindAux rest

/-- Owner and repository captures of the first GitHub URL in an issue
description, as `description.match(...)`. -/
def githubUrlFind (s : String) : Option (String × String) :=
  githubUrlFindAux s.data

/-- Embedding of `.replace(/\.git$/, '')`: drop a final `.git`. -/
def stripDotGitSuffix (name : String) : String :=
  match name.data.reverse with
  | 't' :: 'i' :: 'g' :: '.' :: rest => String.mk rest.reverse
  | _ => name

/-- Accumulating worker of `jsSplitSlash`. -/
def splitOnSlashAux : List Char → List Char → List String
  | [], acc => [String.mk acc.reverse]
  | '/' :: rest, acc => String.mk acc.reverse :: splitOnSlashAux rest []
  | c :: rest, acc => splitOnSlashAux rest (c :: acc)

/-- JS `String.prototype.split('/')`. -/
def jsSplitSlash (s : String) : List String := splitOnSlashAux s.data []

/-- Fallback to `config.GITHUB_DEFAULT_REPO` when configured: split on
slashes and require truthy owner and name parts. -/
def defaultRepoRef (defaultRepo : Option String) : Option RepoRef :=
  match defaultRepo with
  | none => none
  | some d =>
    if d == "" then none
    else
      let parts := jsSplitSlash d
      let owner := parts.headD ""
      let nm := (parts.drop 1).headD ""
      if owner != "" && nm != "" then
        some ⟨"https://github.com/" ++ owner ++ "/" ++ nm, owner, nm⟩
      else none

/-- Embedding of `extractRepositoryInfo`: a GitHub URL in the
description wins, then a `repo:` label, then the configured default;
otherwise the reference is absent. -/
def extractRepositoryInfo (description : String) (labels : List String)
    (defaultRepo : Option String) : Option RepoRef :=
  match githubUrlFind description with
  | some (o, n) =>
    some ⟨"https://github.com/" ++ o ++ "/" ++ n, o, stripDotGitSuffix n⟩
  | none =>
    match labels.find? (fun l => "repo:".data.isPrefixOf l.data) with
    | some l =>
      let parts := splitOnSlashAux (l.data.drop 5) []
      let owner := parts.headD ""
      let nm := (parts.drop 1).headD ""
      if owner != "" && nm != "" then
        some ⟨"https://github.com/" ++ owner ++ "/" ++ nm, owner, nm⟩
      else defaultRepoRef defaultRepo
    | none => defaultRepoRef defaultRepo

/-! ## Result parsing

Embedding of `parseClaudeOutput` from `src/claude/executor.ts` (the same
function is exported in the compute variant of the file). -/

/-- A task result.  The JSON-block branch of the parser copies parsed
JSON values verbatim into the fields, so the fields hold JSON values;
results built by the code itself use string and boolean values only. -/
structure ClaudeTaskResult where
  success : Json
  branch : Option Json := none
  prUrl : Option Json := none
  summary : Option Json := none
  assumptions : Option Json := none
  questions : Option Json := none
  error : Option Json := none
deriving DecidableEq

/-- Capture of the regex `` ```json\s*([\s\S]*?)\s*``` ``: the text
between the first ```` ```json ```` fence and the next ```` ``` ````
fence, trimmed of surrounding whitespace.  The leading `\s*` is greedy,
the lazy body stops at the earliest closing fence, and the trailing
`\s*` absorbs whitespace before it. -/
def jsonBlockCapture (output : String) : Option String :=
  match findSubstrIdx "```json".data output.data with
  | none => none
  | some p =>
    let rest := output.data.drop (p + 7)
    match findSubstrIdx "```".data rest with
    | none => none
    | some q => some (String.mk (trimWsChars (rest.take q)))

/-- Match of the PR URL regex
`https:\/\/github\.com\/[^\/]+\/[^\/]+\/pull\/\d+` at the head of the
input, returning the whole matched text. -/
def matchPrUrlAt (cs : List Char) : Option String :=
  if "https://github.com/".data.isPrefixOf cs then
    let rest := cs.drop 19
    let owner := rest.takeWhile (fun c => c != '/')
    if owner.isEmpty then none
    else
      match rest.drop owner.length with
      | '/' :: rest2 =>
        let nm := rest2.takeWhile (fun c => c != '/')
        if nm.isEmpty then none
        else
          let rest3 := rest2.drop nm.length
          if "/pull/".data.isPrefixOf rest3 then
            let digits := (rest3.drop 6).takeWhile (fun c => (digitVal c).isSome)
            if digits.isEmpty then none
            else
              some (String.mk
                ("https://github.com/".data ++ owner ++ '/' :: nm ++ "/pull/".data ++ digits))
          else none
      | _ => none
  else none

/-- Leftmost match of the PR URL regex over the whole input. -/
def findPrUrlAux : List Char → Option String
  | [] => none
  | c :: rest =>
    match matchPrUrlAt (c :: rest) with
    | some u => some u
    | none => findPrUrlAux rest

/-- First pull-request URL in the console output, as
`output.match(...)`. -/
def findPrUrl (s : String) : Option String :=
  findPrUrlAux s.data

/-- Fallback heuristics of `parseClaudeOutput` after the JSON-block step
(PR-URL sniffing, then failure-token sniffing, then a generic parse
failure). -/
def parseClaudeOutputFallback (output : String) : ClaudeTaskResult :=
  match findPrUrl output with
  | some url =>
    { success := .jbool true
      prUrl := some (.jstr url)
      summary := some (.jstr "Implementation completed (result parsed from output)") }
  | none =>
    if containsSubstr output "error" || containsSubstr output "failed" ||
        containsSubstr output "Error" then
      { success := .jbool false
        error := some (.jstr "Claude Code encountered errors during execution")
        summary := some (.jstr (sliceLast output 1000)) }
    else
      { success := .jbool false
        error := some (.jstr "Could not parse Claude output - no result JSON or PR URL found")
        summary := some (.jstr (sliceLast output 500)) }

/-- The `result.success ?? false` access: the nullish-coalescing
operator replaces an absent or null field by `false`. -/
def successOfField : Option Json → Json
  | none => .jbool false
  | some .jnull => .jbool false
  | some v => v

/-- Embedding of `parseClaudeOutput`.  A parsed JSON block maps its
fields onto the result with `success ?? false`; a block that fails
`JSON.parse`, or parses to `null` (whose property access throws inside
the same `try`), falls through to the heuristics. -/
def parseClaudeOutput (output : String) : ClaudeTaskResult :=
  match jsonBlockCapture output with
  | some content =>
    match jsonParse content with
    | some Json.jnull => parseClaudeOutputFallback output
    | some j =>
      { success := successOfField (jsonGetField j "success")
        branch := jsonGetField j "branch"
        prUrl := jsonGetField j "prUrl"
        summary := jsonGetField j "summary"
        assumptions := jsonGetField j "assumptions"
        questions := jsonGetField j "questions"
        error := jsonGetField j "error" }
    | none => parseClaudeOutputFallback output
  | none => parseClaudeOutputFallback output

/-! ## Webhook payload schema and handler

Embeddings of the zod schemas of `src/linear/types.ts` and of
`handleLinearWebhook`. -/

/-- The `action` enum of `linearWebhookPayloadSchema`. -/
inductive WAction where
  | create : WAction
  | update : WAction
  | remove : WAction
deriving DecidableEq

/-- The `type` enum of `linearWebhookPayloadSchema`. -/
inductive WType where
  | Issue : WType
  | Comment : WType
  | IssueLabel : WType
  | Project : WType
  | Cycle : WType
  | Reaction : WType
deriving DecidableEq

/-- A validated `linearUserSchema` value. -/
structure LinearUserD where
  id : String
  name : String
  email : Option String := none
deriving DecidableEq

/-- The nested `state` object of `linearIssueSchema`. -/
structure IssueStateD where
  id : String
  name : String
  stype : Option String := none
deriving DecidableEq

/-- The nested `team` object of `linearIssueSchema`. -/
structure TeamD where
  id : String
  key : String
  name : String
deriving DecidableEq

/-- A label entry of `linearIssueSchema`. -/
structure LabelD where
  id : String
  name : String
deriving DecidableEq

/-- A validated `linearIssueSchema` value. -/
structure LinearIssueD where
  id : String
  identifier : String
  title : String
  description : Option String := none
  url : String
  branchName : Option String := none
  priority : Option Int := none
  state : Option IssueStateD := none
  team : Option TeamD := none
  labels : Option (List LabelD) := none
  assignee : Option LinearUserD := none
  creator : Option LinearUserD := none
deriving DecidableEq

/-- A validated `linearCommentSchema` value. -/
structure LinearCommentD where
  id : String
  body : String
  issueId : Option String := none
  issue : Option LinearIssueD := none
  user : Option LinearUserD := none
  createdAt : String
  updatedAt : Option String := none
deriving DecidableEq

/-- The `data` union of the webhook payload schema. -/
inductive PayloadData where
  | issueData : LinearIssueD → PayloadData
  | commentData : LinearCommentD → PayloadData
deriving DecidableEq

/-- A validated `linearWebhookPayloadSchema` value. -/
structure WebhookPayloadD where
  action : WAction
  ptype : WType
  data : PayloadData
  url : Option String := none
  createdAt : String
  organizationId : Option String := none
  webhookId : Option String := none
  webhookTimestamp : Option Int := none
deriving DecidableEq

/-- An HTTP response as produced by the express handlers: a status code
and a JSON body. -/
structure HttpResponse where
  status : Nat
  body : Json
deriving DecidableEq

/-- The `.body` access of the `payload.data as LinearComment` cast:
`undefined` when the payload actually carries an issue. -/
def PayloadData.commentBody : PayloadData → Option String
  | .commentData c => some c.body
  | .issueData _ => none

/-- The `.id` access of the cast (both union variants carry an id). -/
def PayloadData.commentId : PayloadData → String
  | .commentData c => c.id
  | .issueData i => i.id

/-- The `.issueId` access of the cast. -/
def PayloadData.commentIssueId : PayloadData → Option String
  | .commentData c => c.issueId
  | .issueData _ => none

/-- The `.issue?.id` access of the cast. -/
def PayloadData.commentIssueInnerId : PayloadData → Option String
  | .commentData c => c.issue.map (·.id)
  | .issueData _ => none

/-- Mention test on the cast body; a JS regex test coerces `undefined`
to the string of that name, which contains no mention. -/
def dataMentionsClaude (d : PayloadData) : Bool :=
  match d.commentBody with
  | some b => mentionsClaude b
  | none => mentionsClaude "undefined"

/-- JS `x || y` on an optional string: the left value unless it is
absent or empty. -/
def jsOrStr (a b : Option String) : Option String :=
  match a with
  | some s => if s != "" then some s else b
  | none => b

/-- Embedding of `handleLinearWebhook` after schema validation: the
response sent and the background tasks started, each task being an
issue-id and comment-id pair handed to `processClaudeRequest`. -/
def handleLinearWebhook (p : WebhookPayloadD) :
    HttpResponse × List (String × String) :=
  if p.ptype ≠ WType.Comment ∨ p.action ≠ WAction.create then
    ({ status := 200
       body := Json.objOf
         [("status", .jstr "ignored"), ("reason", .jstr "Not a comment creation")] }, [])
  else if ¬ dataMentionsClaude p.data then
    ({ status := 200
       body := Json.objOf
         [("status", .jstr "ignored"), ("reason", .jstr "No @Claude mention")] }, [])
  else
    match jsOrStr p.data.commentIssueId p.data.commentIssueInnerId with
    | none =>
      ({ status := 400, body := Json.objOf [("error", .jstr "No issue ID found")] }, [])
    | some iid =>
      if iid == "" then
        ({ status := 400, body := Json.objOf [("error", .jstr "No issue ID found")] }, [])
      else
        ({ status := 202
           body := Json.objOf
             [("status", .jstr "accepted"),
              ("message", .jstr "Processing @Claude request"),
              ("commentId", .jstr p.data.commentId),
              ("issueId", .jstr iid)] },
         [(iid, p.data.commentId)])

/-- Required string field of a zod object schema. -/
def zReqStr (j : Json) (k : String) : Option String :=
  match jsonGetField j k with
  | some (Json.jstr s) => some s
  | _ => none

/-- Optional string field: absent is fine, present must be a string. -/
def zOptStr (j : Json) (k : String) : Option (Option String) :=
  match jsonGetField j k with
  | none => some none
  | some (Json.jstr s) => some (some s)
  | some _ => none

/-- Optional number field. -/
def zOptNum (j : Json) (k : String) : Option (Option Int) :=
  match jsonGetField j k with
  | none => some none
  | some (Json.jnum n) => some (some n)
  | some _ => none

/-- Optional sub-object field parsed by a given schema. -/
def zOptSub (j : Json) (k : String) (f : Json → Option α) : Option (Option α) :=
  match jsonGetField j k with
  | none => some none
  | some v => (f v).map some

/-- Parse of `linearUserSchema`. -/
def zUser (j : Json) : Option LinearUserD := do
  let i ← zReqStr j "id"
  let n ← zReqStr j "name"
  let e ← zOptStr j "email"
  some { id := i, name := n, email := e }

/-- Parse of the nested `state` schema. -/
def zState (j : Json) : Option IssueStateD := do
  let i ← zReqStr j "id"
  let n ← zReqStr j "name"
  let t ← zOptStr j "type"
  some { id := i, name := n, stype := t }

/-- Parse of the nested `team` schema. -/
def zTeam (j : Json) : Option TeamD := do
  let i ← zReqStr j "id"
  let k ← zReqStr j "key"
  let n ← zReqStr j "name"
  some { id := i, key := k, name := n }

/-- Parse of one label entry. -/
def zLabel (j : Json) : Option LabelD := do
  let i ← zReqStr j "id"
  let n ← zReqStr j "name"
  some { id := i, name := n }

/-- Parse of an array of label entries. -/
def zLabelList : JsonItems → Option (List LabelD)
  | .nil => some []
  | .cons v rest => do
    let l ← zLabel v
    let ls ← zLabelList rest
    some (l :: ls)

/-- Optional labels array field. -/
def zOptLabels (j : Json) (k : String) : Option (Option (List LabelD)) :=
  match jsonGetField j k with
  | none => some none
  | some (Json.jarr items) => (zLabelList items).map some
  | some _ => none

/-- Parse of `linearIssueSchema`. -/
def zIssue (j : Json) : Option LinearIssueD := do
  let i ← zReqStr j "id"
  let idf ← zReqStr j "identifier"
  let t ← zReqStr j "title"
  let d ← zOptStr j "description"
  let u ← zReqStr j "url"
  let b ← zOptStr j "branchName"
  let p ← zOptNum j "priority"
  let st ← zOptSub j "state" zState
  let tm ← zOptSub j "team" zTeam
  let ls ← zOptLabels j "labels"
  let asg ← zOptSub j "assignee" zUser
  let cr ← zOptSub j "creator" zUser
  some { id := i, identifier := idf, title := t, description := d, url := u,
         branchName := b, priority := p, state := st, team := tm, labels := ls,
         assignee := asg, creator := cr }

/-- Parse of `linearCommentSchema`. -/
def zComment (j : Json) : Option LinearCommentD := do
  let i ← zReqStr j "id"
  let b ← zReqStr j "body"
  let iid ← zOptStr j "issueId"
  let iss ← zOptSub j "issue" zIssue
  let u ← zOptSub j "user" zUser
  let ca ← zReqStr j "createdAt"
  let ua ← zOptStr j "updatedAt"
  some { id := i, body := b, issueId := iid, issue := iss, user := u,
         createdAt := ca, updatedAt := ua }

/-- Decode of the `action` enum. -/
def zAction (s : String) : Option WAction :=
  if s == "create" then some .create
  else if s == "update" then some .update
  else if s == "remove" then some .remove
  else none

/-- Decode of the `type` enum. -/
def zType (s : String) : Option WType :=
  if s == "Issue" then some .Issue
  else if s == "Comment" then some .Comment
  else if s == "IssueLabel" then some .IssueLabel
  else if s == "Project" then some .Project
  else if s == "Cycle" then some .Cycle
  else if s == "Reaction" then some .Reaction
  else none

/-- Parse of `linearWebhookPayloadSchema` from a JSON body; the `data`
union tries the issue schema first, then the comment schema, as
`z.union` does. -/
def payloadFromJson (j : Json) : Option WebhookPayloadD := do
  let aStr ← zReqStr j "action"
  let a ← zAction aStr
  let tStr ← zReqStr j "type"
  let t ← zType tStr
  let dataJ ← jsonGetField j "data"
  let d ←
    match zIssue dataJ with
    | some i => some (PayloadData.issueData i)
    | none => (zComment dataJ).map PayloadData.commentData
  let u ← zOptStr j "url"
  let ca ← zReqStr j "createdAt"
  let org ← zOptStr j "organizationId"
  let wid ← zOptStr j "webhookId"
  let wts ← zOptNum j "webhookTimestamp"
  some { action := a, ptype := t, data := d, url := u, createdAt := ca,
         organizationId := org, webhookId := wid, webhookTimestamp := wts }

/-- The webhook handler on a parsed JSON body: schema validation and
then classification. -/
def handleWebhookJson (body : Json) : HttpResponse × List (String × String) :=
  match payloadFromJson body with
  | none =>
    ({ status := 400, body := Json.objOf [("error", .jstr "Invalid payload")] }, [])
  | some p => handleLinearWebhook p

/-! ## Signature verification and the webhook route

Embedding of `verifyWebhookSignature` and of the express route
`POST /webhook/linear` (the `express.json()` body parser followed by the
verification middleware followed by the handler). -/

/-- Embedding of `verifyWebhookSignature`: `none` means the middleware
calls `next()`; `some resp` is the 401 response it sends instead.  The
digest is computed over `JSON.stringify(req.body)`, the re-serialized
parsed body. -/
def verifyWebhookSignature (secret : Option String) (reqBody : Json)
    (header : Option String) : Option HttpResponse :=
  match secret with
  | none => none
  | some s =>
    if s == "" then none
    else
      match header with
      | none =>
        some { status := 401, body := Json.objOf [("error", .jstr "Missing signature")] }
      | some sig =>
        let expected := hmacHexStr s (jsonStringify reqBody)
        if sig == expected then none
        else
          some { status := 401, body := Json.objOf [("error", .jstr "Invalid signature")] }

/-- Outcome of one request to the webhook route. -/
inductive RouteResult where
  | badBody : RouteResult
  | rejected : HttpResponse → RouteResult
  | handled : HttpResponse → List (String × String) → RouteResult
deriving DecidableEq

/-- The route pipeline: body parsing, signature verification, handler.
A `rejected` or `badBody` outcome never reaches classification. -/
def webhookRoute (secret : Option String) (rawBody : String)
    (header : Option String) : RouteResult :=
  match jsonParse rawBody with
  | none => .badBody
  | some body =>
    match verifyWebhookSignature secret body header with
    | some resp => .rejected resp
    | none =>
      let hr := handleWebhookJson body
      .handled hr.1 hr.2

/-- Whether the route outcome reached the handler. -/
def RouteResult.isHandled : RouteResult → Bool
  | .handled _ _ => true
  | _ => false

/-! ## Context fetching

Embedding of `LinearApiClient.getIssueContext`.  The Linear API
responses (the issue record and the raw comment nodes) are inputs;
comment creation instants are modelled as epoch milliseconds, the value
`new Date(createdAt).getTime()` compares by. -/

/-- One comment node as returned by the Linear API, with its resolved
author name (absent when the comment has no user). -/
structure RawComment where
  id : String
  body : String
  userName : Option String := none
  createdAtMs : Int
deriving DecidableEq

/-- The issue record as fetched from the Linear API, with its resolved
state name, team key and label names. -/
structure FetchedIssue where
  id : String
  identifier : String
  title : String
  description : Option String := none
  url : String
  branchName : Option String := none
  priority : Option Int := none
  stateName : Option String := none
  teamKey : Option String := none
  labelNames : List String := []
deriving DecidableEq

/-- A comment entry of `IssueContext`. -/
structure ContextComment where
  id : String
  body : String
  author : String
  createdAtMs : Int
  isTrigger : Bool
deriving DecidableEq

/-- The `triggerComment` field of `IssueContext`. -/
structure TriggerComment where
  id : String
  body : String
  author : String
  instruction : String
deriving DecidableEq

/-- The `issue` field of `IssueContext`. -/
structure ContextIssue where
  id : String
  identifier : String
  title : String
  description : String
  url : String
  branchName : Option String
  priority : Option Int
  state : Option String
  teamKey : Option String
  labels : List String
deriving DecidableEq

/-- The consolidated `IssueContext`. -/
structure IssueContext where
  issue : ContextIssue
  comments : List ContextComment
  triggerComment : TriggerComment
  repository : Option RepoRef
deriving DecidableEq

/-- JS `x || d` for an optional string `x` and a default `d`. -/
def jsOrDefault (o : Option String) (d : String) : String :=
  match o with
  | some s => if s != "" then s else d
  | none => d

/-- Insert an element after every earlier element that compares at or
below it. -/
def insertLe (le : α → α → Bool) (x : α) : List α → List α
  | [] => [x]
  | y :: ys => if le y x then y :: insertLe le x ys else x :: y :: ys

/-- Stable ascending sort (JS `Array.prototype.sort` with a numeric
comparator is stable): fold the elements in order, each landing after
the elements already placed that compare at or below it. -/
def stableSortByLe (le : α → α → Bool) (l : List α) : List α :=
  l.foldl (fun acc x => insertLe le x acc) []

/-- Embedding of `getIssueContext`: mark each comment as trigger when
its id equals the trigger id, sort by creation instant (a stable sort,
as JS `Array.prototype.sort`), locate the trigger comment, extract the
instruction and resolve the repository. -/
def getIssueContext (issue : FetchedIssue) (rawComments : List RawComment)
    (triggerCommentId : String) (defaultRepo : Option String) :
    Except String IssueContext :=
  let comments : List ContextComment := rawComments.map (fun c =>
    { id := c.id
      body := c.body
      author := jsOrDefault c.userName "Unknown"
      createdAtMs := c.createdAtMs
      isTrigger := c.id == triggerCommentId })
  let sorted := stableSortByLe (fun a b => a.createdAtMs ≤ b.createdAtMs) comments
  match sorted.find? (·.isTrigger) with
  | none => .error ("Trigger comment " ++ triggerCommentId ++ " not found")
  | some tc =>
    let instruction := extractInstruction tc.body
    let descr := jsOrDefault issue.description ""
    let repository := extractRepositoryInfo descr issue.labelNames defaultRepo
    .ok
      { issue :=
          { id := issue.id, identifier := issue.identifier, title := issue.title,
            description := descr, url := issue.url, branchName := issue.branchName,
            priority := issue.priority, state := issue.stateName,
            teamKey := issue.teamKey, labels := issue.labelNames }
        comments := sorted
        triggerComment :=
          { id := tc.id, body := tc.body, author := tc.author, instruction := instruction }
        repository := repository }

/-- Number of trigger-marked comments of a fetcher outcome (`none` when
the fetcher failed). -/
def triggerMarkCount (r : Except String IssueContext) : Option Nat :=
  match r with
  | .ok ctx => some (ctx.comments.countP (·.isTrigger))
  | .error _ => none

/-! ## Task execution

Embeddings of the `runClaudeCode` and `executeTask` flows of
`src/compute/local.ts`, of the sprites provider of
`src/compute/sprites.ts`, and of the no-repository early return of
`executeClaudeTask` in `src/claude/executor.ts`.  A child process is
described by its observable behaviour: either it closes with an exit
code, an elapsed wall-clock time and its collected output streams, or
spawning fails. -/

deriving instance DecidableEq for Except

/-- Observable behaviour of one spawned child process. -/
inductive ProcBehavior where
  | closes (code : Int) (elapsedMs : Nat) (stdout stderr : String) : ProcBehavior
  | failsToSpawn (msg : String) : ProcBehavior
deriving DecidableEq

/-- The hard wall-clock timeout of the tool run: 30 minutes. -/
def claudeTimeoutMs : Nat := 30 * 60 * 1000

/-- Settlement of the promise returned by a process wrapper, together
with whether the timeout fired and sent SIGTERM. -/
structure ProcRunOutcome where
  result : Except String String
  sigtermSent : Bool
deriving DecidableEq

/-- Embedding of the local `runClaudeCode`: if the process closes before
the timer fires the promise resolves with the collected stdout even on a
nonzero exit code; when the timer fires first the process is sent
SIGTERM and the promise rejects with the timeout message. -/
def runClaudeCode (p : ProcBehavior) : ProcRunOutcome :=
  match p with
  | .closes _code t out _err =>
    if t < claudeTimeoutMs then { result := .ok out, sigtermSent := false }
    else
      { result := .error "Claude Code timed out after 30 minutes", sigtermSent := true }
  | .failsToSpawn msg => { result := .error msg, sigtermSent := false }

/-- Outcomes of the `git` helper commands run by the local provider
before the tool (clone, two config calls, remote set-url); each entry is
the settlement of one `runCommand` promise. -/
structure GitEnv where
  clone : Except String String := .ok ""
  configEmail : Except String String := .ok ""
  configName : Except String String := .ok ""
  setUrl : Except String String := .ok ""
deriving DecidableEq

/-- A failure task result `\x7bsuccess:false, error:msg\x7d` as built in
the catch branches of the executors. -/
def errResult (msg : String) : ClaudeTaskResult :=
  { success := .jbool false, error := some (.jstr msg) }

/-- Result of one local task together with the observable side effects:
whether the workspace directory was removed and whether SIGTERM was
sent to the tool process. -/
structure LocalTaskOutcome where
  result : ClaudeTaskResult
  workspaceRemoved : Bool
  sigtermSent : Bool
deriving DecidableEq

/-- Embedding of `LocalComputeProvider.executeTask`: clone and configure
git only when a repository is present (standalone mode otherwise), run
the tool, parse its output, and remove the workspace only when the
parsed result is successful; any thrown error is caught and returned as
a failure result with the workspace left in place. -/
def localExecuteTask (ctx : IssueContext) (git : GitEnv) (proc : ProcBehavior) :
    LocalTaskOutcome :=
  let gitOutcome : Except String Unit :=
    match ctx.repository with
    | none => .ok ()
    | some _ =>
      match git.clone with
      | .error e => .error e
      | .ok _ =>
        match git.configEmail with
        | .error e => .error e
        | .ok _ =>
          match git.configName with
          | .error e => .error e
          | .ok _ =>
            match git.setUrl with
            | .error e => .error e
            | .ok _ => .ok ()
  match gitOutcome with
  | .error e => { result := errResult e, workspaceRemoved := false, sigtermSent := false }
  | .ok _ =>
    let run := runClaudeCode proc
    match run.result with
    | .error e =>
      { result := errResult e, workspaceRemoved := false, sigtermSent := run.sigtermSent }
    | .ok out =>
      let result := parseClaudeOutput out
      { result := result
        workspaceRemoved := jsTruthy result.success
        sigtermSent := run.sigtermSent }

/-- Embedding of `executeClaudeTask` from `src/claude/executor.ts`: with
no repository the task fails immediately; otherwise the flow matches the
local provider with a repository present. -/
def executeClaudeTask (ctx : IssueContext) (git : GitEnv) (proc : ProcBehavior) :
    LocalTaskOutcome :=
  match ctx.repository with
  | none =>
    { result := errResult "No repository configured"
      workspaceRemoved := false
      sigtermSent := false }
  | some _ => localExecuteTask ctx git proc

/-- Timeout passed to `spriteExec` for the tool step: 30 minutes. -/
def spriteExecTimeoutMs : Nat := 30 * 60 * 1000

/-- Embedding of `spriteExec` for the tool step: unlike the local
wrapper it rejects on a nonzero exit code; the timer sends SIGTERM and
rejects with the sprite timeout message. -/
def spriteClaudeExec (p : ProcBehavior) : ProcRunOutcome :=
  match p with
  | .closes code t out err =>
    if t < spriteExecTimeoutMs then
      if code == 0 then { result := .ok out, sigtermSent := false }
      else
        { result := .error ("Sprite command failed with code " ++ toString code ++ ": " ++ err)
          sigtermSent := false }
    else
      { result := .error "Sprite command timed out after 1800000ms", sigtermSent := true }
  | .failsToSpawn msg => { result := .error msg, sigtermSent := false }

/-- Outcomes of the sprite setup commands (create, two git configs,
clone, prompt write) and the behaviour of the tool step. -/
structure SpriteEnv where
  create : Except String String := .ok ""
  cfgEmail : Except String String := .ok ""
  cfgName : Except String String := .ok ""
  clone : Except String String := .ok ""
  tee : Except String String := .ok ""
  claudeProc : ProcBehavior
deriving DecidableEq

/-- Result of one sprites task with its side effects: whether sprite
deletion was attempted (it is attempted on both the success and the
catch paths) and whether SIGTERM was sent. -/
structure SpriteTaskOutcome where
  result : ClaudeTaskResult
  spriteDeleted : Bool
  sigtermSent : Bool
deriving DecidableEq

/-- Embedding of `SpritesComputeProvider.executeTask`: no repository
fails immediately before any sprite exists; otherwise the sprite is
created, the repository cloned, the tool run with the 30-minute
timeout, and the sprite is deleted on every path afterwards. -/
def spritesExecuteTask (ctx : IssueContext) (env : SpriteEnv) : SpriteTaskOutcome :=
  match ctx.repository with
  | none =>
    { result := errResult "No repository configured"
      spriteDeleted := false
      sigtermSent := false }
  | some _ =>
    let setup : Except String Unit :=
      match env.create with
      | .error e => .error e
      | .ok _ =>
        match env.cfgEmail with
        | .error e => .error e
        | .ok _ =>
          match env.cfgName with
          | .error e => .error e
          | .ok _ =>
            match env.clone with
            | .error e => .error e
            | .ok _ =>
              match env.tee with
              | .error e => .error e
              | .ok _ => .ok ()
    match setup with
    | .error e => { result := errResult e, spriteDeleted := true, sigtermSent := false }
    | .ok _ =>
      let run := spriteClaudeExec env.claudeProc
      match run.result with
      | .error e =>
        { result := errResult e, spriteDeleted := true, sigtermSent := run.sigtermSent }
      | .ok out =>
        { result := parseClaudeOutput out
          spriteDeleted := true
          sigtermSent := run.sigtermSent }

/-! ## The asynchronous request pipeline

Embedding of `processClaudeRequest`: the sequence of comments posted to
the issue and whether the executor was invoked.  Each tag stands for
one of the literal comment templates of the source. -/

/-- A comment posted back to the issue by `processClaudeRequest`. -/
inductive PostedComment where
  | acknowledgment : PostedComment
  | noRepository : PostedComment
  | taskResult (r : ClaudeTaskResult) : PostedComment
  | unexpectedError (msg : String) : PostedComment
deriving DecidableEq

/-- Embedding of `processClaudeRequest`: post the acknowledgment, fetch
the context, abort with a guidance comment when no repository was
resolved, otherwise run the executor and post its outcome; a context
fetch failure is caught and posted as an unexpected error.  The Boolean
records whether the executor ran. -/
def processClaudeRequest (getCtx : Except String IssueContext)
    (exec : IssueContext → ClaudeTaskResult) : List PostedComment × Bool :=
  match getCtx with
  | .error e => ([.acknowledgment, .unexpectedError e], false)
  | .ok ctx =>
    match ctx.repository with
    | none => ([.acknowledgment, .noRepository], false)
    | some _ =>
      let r := exec ctx
      ([.acknowledgment, .taskResult r], true)

/-! ## Statement taken from the specification wording

Used only to compare a claim's wording against the embedded code. -/

/-- Statement of claim C6 in the specification's words: the extracted
instruction is the body with the mention token and the whitespace
immediately following it removed (nothing else changes). -/
def specStripMention (body : String) : String :=
  match findCiMentionIdx body with
  | some i =>
    let before := body.data.take i
    let after := (body.data.drop (i + 7)).dropWhile isJsWs
    String.mk (before ++ after)
  | none => body

/-! ## Helper lemmas -/

theorem isPrefixOf_append_of_le {n a : List Char} (b : List Char)
    (h : n.length ≤ a.length) : n.isPrefixOf (a ++ b) = n.isPrefixOf a := by
  induction n generalizing a with
  | nil => simp [List.isPrefixOf]
  | cons x xs ih =>
    cases a with
    | nil => simp at h
    | cons y ys =>
      simp only [List.cons_append, List.isPrefixOf, List.append_eq]
      rw [ih (by simpa using h)]

theorem isPrefixOf_append_right {n a : List Char} (b : List Char)
    (h : n.isPrefixOf a = true) : n.isPrefixOf (a ++ b) = true := by
  have hle : n.length ≤ a.length := ((List.isPrefixOf_iff_prefix).mp h).length_le
  rw [isPrefixOf_append_of_le b hle]
  exact h

theorem findSubstrIdx_bound {n a : List Char} {i : Nat}
    (h : findSubstrIdx n a = some i) : i + n.length ≤ a.length := by
  induction a generalizing i with
  | nil =>
    rw [findSubstrIdx] at h
    by_cases hn : n = []
    · rw [if_pos hn] at h
      cases h
      subst hn
      exact Nat.le_refl _
    · rw [if_neg hn] at h
      cases h
  | cons c rest ih =>
    rw [findSubstrIdx] at h
    by_cases hp : n.isPrefixOf (c :: rest) = true
    · rw [if_pos hp] at h
      cases h
      have := ((List.isPrefixOf_iff_prefix).mp hp).length_le
      simpa using this
    · rw [if_neg hp] at h
      cases hfind : findSubstrIdx n rest with
      | none =>
        rw [hfind] at h
        cases h
      | some k =>
        rw [hfind] at h
        simp only [Option.map_some', Option.some.injEq] at h
        cases h
        have := ih hfind
        simp only [List.length_cons]
        omega

theorem findSubstrIdx_append_of_some {n a : List Char} {i : Nat} (b : List Char)
    (h : findSubstrIdx n a = some i) : findSubstrIdx n (a ++ b) = some i := by
  induction a generalizing i with
  | nil =>
    rw [findSubstrIdx] at h
    by_cases hn : n = []
    · rw [if_pos hn] at h
      cases h
      subst hn
      rw [List.nil_append]
      cases b with
      | nil => rfl
      | cons x xs => rfl
    · rw [if_neg hn] at h
      cases h
  | cons c rest ih =>
    rw [findSubstrIdx] at h
    rw [List.cons_append, findSubstrIdx]
    by_cases hp : n.isPrefixOf (c :: rest) = true
    · rw [if_pos hp] at h
      rw [if_pos (by rw [← List.cons_append]; exact isPrefixOf_append_right b hp)]
      exact h
    · rw [if_neg hp] at h
      cases hfind : findSubstrIdx n rest with
      | none =>
        rw [hfind] at h
        cases h
      | some k =>
        rw [hfind] at h
        simp only [Option.map_some', Option.some.injEq] at h
        have hk := findSubstrIdx_bound hfind
        have hnp : ¬ (n.isPrefixOf (c :: (rest ++ b)) = true) := by
          have hlen : n.length ≤ (c :: rest).length := by
            simp only [List.length_cons]
            omega
          rw [show c :: (rest ++ b) = (c :: rest) ++ b from rfl,
            isPrefixOf_append_of_le b hlen]
          simpa using hp
        rw [if_neg hnp, ih hfind, Option.map_some', h]

theorem findSubstrIdx_none_tail {n : List Char} {c : Char} {rest : List Char}
    (h : findSubstrIdx n (c :: rest) = none) : findSubstrIdx n rest = none := by
  rw [findSubstrIdx] at h
  by_cases hp : n.isPrefixOf (c :: rest) = true
  · rw [if_pos hp] at h
    cases h
  · rw [if_neg hp] at h
    cases hfind : findSubstrIdx n rest with
    | none => rfl
    | some k =>
      rw [hfind] at h
      cases h

theorem insertLe_perm (le : α → α → Bool) (x : α) (l : List α) :
    (insertLe le x l).Perm (x :: l) := by
  induction l with
  | nil => simp [insertLe]
  | cons y ys ih =>
    rw [insertLe]
    by_cases h : le y x = true
    · rw [if_pos h]
      exact (ih.cons y).trans (List.Perm.swap x y ys)
    · rw [if_neg h]

theorem stableSortByLe_perm (le : α → α → Bool) (l : List α) :
    (stableSortByLe le l).Perm l := by
  suffices h : ∀ (acc : List α),
      (l.foldl (fun acc x => insertLe le x acc) acc).Perm (l ++ acc) by
    simpa [stableSortByLe] using h []
  induction l with
  | nil =>
    intro acc
    simp
  | cons x xs ih =>
    intro acc
    simp only [List.foldl_cons, List.cons_append]
    exact ((ih (insertLe le x acc)).trans
      (List.Perm.append_left xs (insertLe_perm le x acc))).trans List.perm_middle

theorem countP_le_one_of_nodup_ids {l : List RawComment} {t : String}
    (h : (l.map (·.id)).Nodup) : l.countP (fun c => c.id == t) ≤ 1 := by
  induction l with
  | nil => simp
  | cons c tl ih =>
    simp only [List.map_cons, List.nodup_cons] at h
    rw [List.countP_cons]
    by_cases hc : c.id = t
    · have hz : tl.countP (fun c => c.id == t) = 0 := by
        rw [List.countP_eq_zero]
        intro d hd
        simp only [beq_iff_eq]
        intro hdt
        exact h.1 (List.mem_map.mpr ⟨d, hd, hdt.trans hc.symm⟩)
      simp [hz, hc]
    · simp only [beq_iff_eq, hc]
      simpa using ih h.2

/-! ## Claim C5 -/

/-- Claim C5: repository resolution follows the priority order, with a
GitHub URL in the description taking precedence over a `repo:owner/name`
label, which takes precedence over the configured default; when none
applies the reference is absent, a valid outcome rather than an
error. -/
theorem claim5_repository_resolution_priority :
    (∀ (desc : String) (labels : List String) (defRepo : Option String) (o n : String),
      githubUrlFind desc = some (o, n) →
        extractRepositoryInfo desc labels defRepo =
          some ⟨"https://github.com/" ++ o ++ "/" ++ n, o, stripDotGitSuffix n⟩) ∧
    (∀ (desc : String) (labels : List String) (defRepo : Option String)
        (lab owner nm : String),
      githubUrlFind desc = none →
      labels.find? (fun l => "repo:".data.isPrefixOf l.data) = some lab →
      (splitOnSlashAux (lab.data.drop 5) []).headD "" = owner →
      ((splitOnSlashAux (lab.data.drop 5) []).drop 1).headD "" = nm →
      owner ≠ "" → nm ≠ "" →
        extractRepositoryInfo desc labels defRepo =
          some ⟨"https://github.com/" ++ owner ++ "/" ++ nm, owner, nm⟩) ∧
    (∀ (desc : String) (labels : List String) (defRepo : Option String),
      githubUrlFind desc = none →
      labels.find? (fun l => "repo:".data.isPrefixOf l.data) = none →
        extractRepositoryInfo desc labels defRepo = defaultRepoRef defRepo) ∧
    (∀ (desc : String) (labels : List String),
      githubUrlFind desc = none →
      labels.find? (fun l => "repo:".data.isPrefixOf l.data) = none →
        extractRepositoryInfo desc labels none = none) := by
  refine ⟨?_, ?_, ?_, ?_⟩
  · intro desc labels defRepo o n h1
    simp only [extractRepositoryInfo, h1]
  · intro desc labels defRepo lab owner nm h1 h2 h3 h4 h5 h6
    subst h3
    subst h4
    simp only [extractRepositoryInfo, h1, h2]
    rw [if_pos (by simp only [Bool.and_eq_true, bne_iff_ne]; exact ⟨h5, h6⟩)]
  · intro desc labels defRepo h1 h2
    simp only [extractRepositoryInfo, h1, h2]
  · intro desc labels h1 h2
    simp only [extractRepositoryInfo, h1, h2, defaultRepoRef]

/-- Witness for claim C5 at concrete inputs covering all four
branches. -/
theorem claim5_witness :
    extractRepositoryInfo "see https://github.com/acme/widgets ok" ["repo:x/y"] (some "d/r")
      = some ⟨"https://github.com/acme/widgets", "acme", "widgets"⟩ ∧
    extractRepositoryInfo "no url" ["repo:foo/bar"] (some "d/r")
      = some ⟨"https://github.com/foo/bar", "foo", "bar"⟩ ∧
    extractRepositoryInfo "no url" ["other"] (some "d/r") = defaultRepoRef (some "d/r") ∧
    extractRepositoryInfo "no url" ["other"] none = none := by
  refine ⟨?_, ?_, ?_, ?_⟩
  · exact claim5_repository_resolution_priority.1 _ _ _ "acme" "widgets" (by decide)
  · exact claim5_repository_resolution_priority.2.1 _ _ _ "repo:foo/bar" "foo" "bar"
      (by decide) (by decide) (by decide) (by decide) (by decide) (by decide)
  · exact claim5_repository_resolution_priority.2.2.1 _ _ _ (by decide) (by decide)
  · exact claim5_repository_resolution_priority.2.2.2 _ _ (by decide) (by decide)

/-! ## Claim C10 -/

/-- Claim C10: a reference resolved from a description URL has the
`.git` suffix stripped from its name but retained in its url, while
references resolved from a label or from the default never strip the
suffix from the name. -/
theorem claim10_dotgit_suffix_handling :
    (∀ (desc : String) (labels : List String) (defRepo : Option String) (o n : String),
      githubUrlFind desc = some (o, n) →
        extractRepositoryInfo desc labels defRepo =
          some ⟨"https://github.com/" ++ o ++ "/" ++ n, o, stripDotGitSuffix n⟩) ∧
    (∀ base : String, stripDotGitSuffix (base ++ ".git") = base) ∧
    (∀ (desc : String) (labels : List String) (defRepo : Option String)
        (lab owner nm : String),
      githubUrlFind desc = none →
      labels.find? (fun l => "repo:".data.isPrefixOf l.data) = some lab →
      (splitOnSlashAux (lab.data.drop 5) []).headD "" = owner →
      ((splitOnSlashAux (lab.data.drop 5) []).drop 1).headD "" = nm →
      owner ≠ "" → nm ≠ "" →
        ∃ r, extractRepositoryInfo desc labels defRepo = some r ∧
          r.name = nm ∧ r.url = "https://github.com/" ++ owner ++ "/" ++ nm) ∧
    (∀ (d : String) (r : RepoRef), defaultRepoRef (some d) = some r →
      r.name = ((jsSplitSlash d).drop 1).headD "" ∧
      r.url = "https://github.com/" ++ r.owner ++ "/" ++ r.name) := by
  refine ⟨?_, ?_, ?_, ?_⟩
  · intro desc labels defRepo o n h1
    simp only [extractRepositoryInfo, h1]
  · intro base
    have hd : (base ++ ".git").data.reverse = 't' :: 'i' :: 'g' :: '.' :: base.data.reverse := by
      rw [String.data_append, List.reverse_append]
      rfl
    simp only [stripDotGitSuffix, hd, List.reverse_reverse]
  · intro desc labels defRepo lab owner nm h1 h2 h3 h4 h5 h6
    subst h3
    subst h4
    simp only [extractRepositoryInfo, h1, h2]
    rw [if_pos (by simp only [Bool.and_eq_true, bne_iff_ne]; exact ⟨h5, h6⟩)]
    exact ⟨_, rfl, rfl, rfl⟩
  · intro d r h
    simp only [defaultRepoRef] at h
    by_cases h0 : (d == "") = true
    · rw [if_pos h0] at h
      cases h
    · rw [if_neg h0] at h
      by_cases h1 : ((jsSplitSlash d).headD "" != "" &&
          ((jsSplitSlash d).drop 1).headD "" != "") = true
      · rw [if_pos h1] at h
        cases h
        exact ⟨rfl, rfl⟩
      · rw [if_neg h1] at h
        cases h

/-- Witness for claim C10 at concrete inputs: a URL-resolved reference
strips the name but keeps the url suffix, a label-resolved and a
default-resolved reference do not strip. -/
theorem claim10_witness :
    extractRepositoryInfo "x https://github.com/o/r.git y" ["repo:a/b.git"] none
      = some ⟨"https://github.com/o/r.git", "o", "r"⟩ ∧
    stripDotGitSuffix "r.git" = "r" ∧
    (∃ r, extractRepositoryInfo "no url" ["repo:a/b.git"] none = some r ∧
      r.name = "b.git" ∧ r.url = "https://github.com/a/b.git") ∧
    ((⟨"https://github.com/d/r.git", "d", "r.git"⟩ : RepoRef).name
        = ((jsSplitSlash "d/r.git").drop 1).headD "" ∧
      (⟨"https://github.com/d/r.git", "d", "r.git"⟩ : RepoRef).url
        = "https://github.com/" ++ "d" ++ "/" ++ "r.git") := by
  refine ⟨?_, ?_, ?_, ?_⟩
  · exact claim10_dotgit_suffix_handling.1 _ _ _ "o" "r.git" (by decide)
  · exact claim10_dotgit_suffix_handling.2.1 "r"
  · exact claim10_dotgit_suffix_handling.2.2.1 _ _ _ "repo:a/b.git" "a" "b.git"
      (by decide) (by decide) (by decide) (by decide) (by decide) (by decide)
  · exact claim10_dotgit_suffix_handling.2.2.2 "d/r.git" _ (by decide)

/-! ## Claim C6 -/

/-- Counterexample to claim C6 as stated: extraction does not merely
strip the mention token and the whitespace following it.  It also trims
trailing whitespace of the remainder, and it drops any text before the
mention. -/
theorem claim6_counterexample :
    extractInstruction "@claude fix it  " = "fix it" ∧
    specStripMention "@claude fix it  " = "fix it  " ∧
    extractInstruction "@claude fix it  " ≠ specStripMention "@claude fix it  " ∧
    extractInstruction "abc @claude xyz" = "xyz" ∧
    specStripMention "abc @claude xyz" = "abc xyz" ∧
    extractInstruction "abc @claude xyz" ≠ specStripMention "abc @claude xyz" := by
  exact ⟨by decide, by decide, by decide, by decide, by decide, by decide⟩

/-- Claim C6 as amended: for a body containing the mention, extraction
returns the text after the first case-insensitive mention occurrence
trimmed of whitespace on both sides (text before the mention is
dropped); for a body with no mention, the full body verbatim, so
extraction is idempotent there. -/
theorem claim6_instruction_extraction :
    ∀ body : String,
      (∀ i, findCiMentionIdx body = some i →
        extractInstruction body = trimWs (String.mk (body.data.drop (i + 7)))) ∧
      (mentionsClaude body = false →
        extractInstruction body = body ∧
        extractInstruction (extractInstruction body) = extractInstruction body) := by
  intro body
  constructor
  · intro i h
    simp only [extractInstruction, h]
  · intro h
    have h2 : findCiMentionIdx body = none := by
      cases hf : findCiMentionIdx body with
      | none => rfl
      | some k =>
        rw [mentionsClaude, hf] at h
        cases h
    have e : extractInstruction body = body := by
      simp only [extractInstruction, h2]
    exact ⟨e, by rw [e, e]⟩

/-- Witness for claim C6 at concrete inputs for both branches. -/
theorem claim6_witness :
    extractInstruction "@claude hi" = trimWs (String.mk (("@claude hi" : String).data.drop (0 + 7))) ∧
    extractInstruction "plain" = "plain" := by
  exact ⟨(claim6_instruction_extraction "@claude hi").1 0 (by decide),
    ((claim6_instruction_extraction "plain").2 (by decide)).1⟩

/-! ## Claim C8 -/

/-- Claim C8: every valid webhook payload whose type is not `Comment`
or whose action is not `create` is answered with HTTP 200, a status of
`ignored` and an explicit reason, and starts no background task. -/
theorem claim8_ignored_events :
    ∀ p : WebhookPayloadD,
      p.ptype ≠ WType.Comment ∨ p.action ≠ WAction.create →
        handleLinearWebhook p =
          ({ status := 200
             body := Json.objOf
               [("status", Json.jstr "ignored"),
                ("reason", Json.jstr "Not a comment creation")] }, []) := by
  intro p h
  simp only [handleLinearWebhook]
  rw [if_pos h]

/-- Witness for claim C8 at a concrete issue-update payload. -/
theorem claim8_witness :
    handleLinearWebhook
      { action := WAction.update, ptype := WType.Issue,
        data := PayloadData.issueData
          { id := "i1", identifier := "ENG-1", title := "t", url := "u" },
        createdAt := "2024-01-01" } =
      ({ status := 200
         body := Json.objOf
           [("status", Json.jstr "ignored"),
            ("reason", Json.jstr "Not a comment creation")] }, []) :=
  claim8_ignored_events _ (Or.inl (by decide))

/-! ## Claim C9 -/

/-- Counterexample to claim C9 as stated: when the comment list handed
back by the tracker API carries the trigger id twice, the fetcher marks
both entries as trigger and still returns a context, so the returned
context does not satisfy the exactly-one invariant. -/
theorem claim9_counterexample :
    triggerMarkCount
      (getIssueContext
        { id := "i1", identifier := "ENG-1", title := "T", url := "u" }
        [{ id := "c1", body := "@claude a", createdAtMs := 1 },
         { id := "c1", body := "b", createdAtMs := 2 }]
        "c1" none) = some 2 ∧
    some 2 ≠ some (1 : Nat) := by
  exact ⟨by decide, by decide⟩

/-- Claim C9 as amended: every context returned by the fetcher has as
many trigger-marked comments as there are fetched comments carrying the
trigger id — at least one, and exactly one whenever the fetched comment
ids are distinct (as tracker ids are) — and its trigger comment carries
the trigger id; when no fetched comment carries the id, the fetcher
fails with the trigger-not-found error. -/
theorem claim9_trigger_invariant :
    (∀ (issue : FetchedIssue) (raw : List RawComment) (trig : String)
        (defRepo : Option String) (ctx : IssueContext),
      getIssueContext issue raw trig defRepo = .ok ctx →
        ctx.comments.countP (·.isTrigger) = raw.countP (fun c => c.id == trig) ∧
        1 ≤ ctx.comments.countP (·.isTrigger) ∧
        ctx.triggerComment.id = trig ∧
        ((raw.map (·.id)).Nodup → ctx.comments.countP (·.isTrigger) = 1)) ∧
    (∀ (issue : FetchedIssue) (raw : List RawComment) (trig : String)
        (defRepo : Option String),
      (∀ c ∈ raw, c.id ≠ trig) →
        getIssueContext issue raw trig defRepo =
          .error ("Trigger comment " ++ trig ++ " not found")) := by
  constructor
  · intro issue raw trig defRepo ctx h
    rw [getIssueContext] at h
    cases hf : (stableSortByLe (fun a b => a.createdAtMs ≤ b.createdAtMs)
        (raw.map (fun c =>
          { id := c.id, body := c.body, author := jsOrDefault c.userName "Unknown",
            createdAtMs := c.createdAtMs,
            isTrigger := c.id == trig : ContextComment }))).find? (·.isTrigger) with
    | none =>
      rw [hf] at h
      cases h
    | some tc =>
      rw [hf] at h
      cases h
      have hperm := stableSortByLe_perm
        (fun a b : ContextComment => a.createdAtMs ≤ b.createdAtMs)
        (raw.map (fun c =>
          { id := c.id, body := c.body, author := jsOrDefault c.userName "Unknown",
            createdAtMs := c.createdAtMs, isTrigger := c.id == trig : ContextComment }))
      have hcount : (stableSortByLe (fun a b => a.createdAtMs ≤ b.createdAtMs)
          (raw.map (fun c =>
            { id := c.id, body := c.body, author := jsOrDefault c.userName "Unknown",
              createdAtMs := c.createdAtMs,
              isTrigger := c.id == trig : ContextComment }))).countP (·.isTrigger) =
          raw.countP (fun c => c.id == trig) := by
        rw [hperm.countP_eq]
        rw [List.countP_map]
        rfl
      have htc := List.find?_some hf
      have hmem := List.mem_of_find?_eq_some hf
      have hone : 1 ≤ (stableSortByLe (fun a b => a.createdAtMs ≤ b.createdAtMs)
          (raw.map (fun c =>
            { id := c.id, body := c.body, author := jsOrDefault c.userName "Unknown",
              createdAtMs := c.createdAtMs,
              isTrigger := c.id == trig : ContextComment }))).countP (·.isTrigger) :=
        List.countP_pos_iff.mpr ⟨tc, hmem, htc⟩
      have hid : tc.id = trig := by
        have hmem2 := hperm.mem_iff.mp hmem
        obtain ⟨c, _, hceq⟩ := List.mem_map.mp hmem2
        have : tc.isTrigger = (c.id == trig) := by rw [← hceq]
        rw [htc] at this
        have hct : c.id = trig := by
          have := this.symm
          simpa using this
        rw [← hceq]
        exact hct
      refine ⟨hcount, hone, hid, ?_⟩
      intro hnodup
      have hle := countP_le_one_of_nodup_ids (t := trig) hnodup
      rw [hcount] at hone ⊢
      omega
  · intro issue raw trig defRepo h
    rw [getIssueContext]
    have hf : (stableSortByLe (fun a b => a.createdAtMs ≤ b.createdAtMs)
        (raw.map (fun c =>
          { id := c.id, body := c.body, author := jsOrDefault c.userName "Unknown",
            createdAtMs := c.createdAtMs,
            isTrigger := c.id == trig : ContextComment }))).find? (·.isTrigger) = none := by
      rw [List.find?_eq_none]
      intro x hx
      have hperm := stableSortByLe_perm
        (fun a b : ContextComment => a.createdAtMs ≤ b.createdAtMs)
        (raw.map (fun c =>
          { id := c.id, body := c.body, author := jsOrDefault c.userName "Unknown",
            createdAtMs := c.createdAtMs, isTrigger := c.id == trig : ContextComment }))
      have hx2 := hperm.mem_iff.mp hx
      obtain ⟨c, hc, hceq⟩ := List.mem_map.mp hx2
      have : x.isTrigger = (c.id == trig) := by rw [← hceq]
      rw [this]
      simpa using h c hc
    rw [hf]

/-- Witness for claim C9: a single matching comment yields exactly one
trigger mark, and a list with no matching comment yields the error. -/
theorem claim9_witness :
    1 ≤ ([{ id := "c1", body := "@claude go", author := "Ann", createdAtMs := 1,
            isTrigger := true }] : List ContextComment).countP (·.isTrigger) ∧
    getIssueContext
      { id := "i1", identifier := "ENG-1", title := "T", url := "u" }
      [{ id := "c2", body := "x", createdAtMs := 1 }] "c1" none =
      .error ("Trigger comment " ++ "c1" ++ " not found") := by
  constructor
  · exact (claim9_trigger_invariant.1
      { id := "i1", identifier := "ENG-1", title := "T", url := "u" }
      [{ id := "c1", body := "@claude go", userName := some "Ann", createdAtMs := 1 }]
      "c1" none
      { issue := { id := "i1", identifier := "ENG-1", title := "T", description := "",
                   url := "u", branchName := none, priority := none, state := none,
                   teamKey := none, labels := [] }
        comments := [{ id := "c1", body := "@claude go", author := "Ann",
                       createdAtMs := 1, isTrigger := true }]
        triggerComment := { id := "c1", body := "@claude go", author := "Ann",
                            instruction := "go" }
        repository := none }
      (by decide)).2.1
  · exact claim9_trigger_invariant.2 _ _ "c1" none (by decide)

/-! ## Claim C3 -/

/-- Counterexample to claim C3 as stated: on a timeout the local
provider returns the timeout failure and sends SIGTERM, but the
workspace is not torn down — the removal only happens on success, so
`workspaceRemoved` is `false` where the claim requires teardown. -/
theorem claim3_counterexample :
    localExecuteTask
      { issue := { id := "i", identifier := "ENG-2", title := "t", description := "",
                   url := "u", branchName := none, priority := none, state := none,
                   teamKey := none, labels := [] }
        comments := []
        triggerComment := { id := "c", body := "b", author := "a", instruction := "i" }
        repository := some ⟨"https://github.com/a/b", "a", "b"⟩ }
      {} (.closes 0 claudeTimeoutMs "partial output" "") =
      { result := errResult "Claude Code timed out after 30 minutes"
        workspaceRemoved := false
        sigtermSent := true } ∧
    (errResult "Claude Code timed out after 30 minutes").success = Json.jbool false := by
  exact ⟨by decide, by decide⟩

/-- Claim C3 as amended: a run that reaches the wall-clock timeout gets
SIGTERM and a `\x7bsuccess:false\x7d` result carrying the timeout
message on either provider; the remote sandbox is deleted afterwards,
but the local workspace is retained (it is removed only on success). -/
theorem claim3_timeout_behaviour :
    (∀ (ctx : IssueContext) (git : GitEnv) (code : Int) (t : Nat) (out err : String),
      git.clone.isOk = true → git.configEmail.isOk = true →
      git.configName.isOk = true → git.setUrl.isOk = true →
      claudeTimeoutMs ≤ t →
        localExecuteTask ctx git (.closes code t out err) =
          { result := errResult "Claude Code timed out after 30 minutes"
            workspaceRemoved := false
            sigtermSent := true }) ∧
    (∀ (ctx : IssueContext) (env : SpriteEnv) (code : Int) (t : Nat) (out err : String)
        (r : RepoRef),
      ctx.repository = some r →
      env.create.isOk = true → env.cfgEmail.isOk = true → env.cfgName.isOk = true →
      env.clone.isOk = true → env.tee.isOk = true →
      env.claudeProc = .closes code t out err →
      spriteExecTimeoutMs ≤ t →
        spritesExecuteTask ctx env =
          { result := errResult "Sprite command timed out after 1800000ms"
            spriteDeleted := true
            sigtermSent := true }) := by
  constructor
  · intro ctx git code t out err h1 h2 h3 h4 ht
    obtain ⟨gc, ge, gn, gu⟩ := git
    cases gc with
    | error e => cases h1
    | ok s1 =>
      cases ge with
      | error e => cases h2
      | ok s2 =>
        cases gn with
        | error e => cases h3
        | ok s3 =>
          cases gu with
          | error e => cases h4
          | ok s4 =>
            cases hrep : ctx.repository with
            | none =>
              simp only [localExecuteTask, hrep, runClaudeCode]
              rw [if_neg (by omega)]
            | some r =>
              simp only [localExecuteTask, hrep, runClaudeCode]
              rw [if_neg (by omega)]
  · intro ctx env code t out err r hrep h1 h2 h3 h4 h5 hproc ht
    obtain ⟨ec, ee, en, el, et, ep⟩ := env
    simp only at hproc
    subst hproc
    cases ec with
    | error e => cases h1
    | ok s1 =>
      cases ee with
      | error e => cases h2
      | ok s2 =>
        cases en with
        | error e => cases h3
        | ok s3 =>
          cases el with
          | error e => cases h4
          | ok s4 =>
            cases et with
            | error e => cases h5
            | ok s5 =>
              simp only [spritesExecuteTask, hrep, spriteClaudeExec]
              rw [if_neg (by omega)]

/-- Witness for claim C3 at the exact timeout instant on both
providers. -/
theorem claim3_witness :
    localExecuteTask
      { issue := { id := "i", identifier := "ENG-2", title := "t", description := "",
                   url := "u", branchName := none, priority := none, state := none,
                   teamKey := none, labels := [] }
        comments := []
        triggerComment := { id := "c", body := "b", author := "a", instruction := "i" }
        repository := none }
      {} (.closes 0 claudeTimeoutMs "out" "") =
      { result := errResult "Claude Code timed out after 30 minutes"
        workspaceRemoved := false
        sigtermSent := true } ∧
    spritesExecuteTask
      { issue := { id := "i", identifier := "ENG-2", title := "t", description := "",
                   url := "u", branchName := none, priority := none, state := none,
                   teamKey := none, labels := [] }
        comments := []
        triggerComment := { id := "c", body := "b", author := "a", instruction := "i" }
        repository := some ⟨"https://github.com/a/b", "a", "b"⟩ }
      { claudeProc := .closes 0 spriteExecTimeoutMs "out" "" } =
      { result := errResult "Sprite command timed out after 1800000ms"
        spriteDeleted := true
        sigtermSent := true } := by
  constructor
  · exact claim3_timeout_behaviour.1 _ {} 0 claudeTimeoutMs "out" ""
      (by decide) (by decide) (by decide) (by decide) (Nat.le_refl _)
  · exact claim3_timeout_behaviour.2 _
      { claudeProc := .closes 0 spriteExecTimeoutMs "out" "" }
      0 spriteExecTimeoutMs "out" "" ⟨"https://github.com/a/b", "a", "b"⟩
      rfl (by decide) (by decide) (by decide) (by decide) (by decide) rfl
      (Nat.le_refl _)

/-! ## Claim C4 -/

/-- Counterexample to claim C4 as stated: with no repository resolved,
the standalone-capable local provider still reports the pull-request
URL found in the tool output, so the resulting task result does have a
PR URL. -/
theorem claim4_counterexample :
    localExecuteTask
      { issue := { id := "i", identifier := "ENG-2", title := "t", description := "",
                   url := "u", branchName := none, priority := none, state := none,
                   teamKey := none, labels := [] }
        comments := []
        triggerComment := { id := "c", body := "b", author := "a", instruction := "i" }
        repository := none }
      {} (.closes 0 1000 "Opened https://github.com/acme/widgets/pull/42" "") =
      { result :=
          { success := Json.jbool true
            prUrl := some (Json.jstr "https://github.com/acme/widgets/pull/42")
            summary := some (Json.jstr "Implementation completed (result parsed from output)") }
        workspaceRemoved := true
        sigtermSent := false } ∧
    some (Json.jstr "https://github.com/acme/widgets/pull/42") ≠ (none : Option Json) := by
  exact ⟨by decide, by decide⟩

/-- Claim C4 as amended: with no repository resolved the assembled
context indeed has no repository, but the webhook pipeline then posts a
guidance comment and never runs the automation; the `executeClaudeTask`
variant fails immediately with a no-repository error; only the local
compute provider proceeds in standalone mode, and its result is exactly
what the output parser yields — including any pull-request URL the tool
printed. -/
theorem claim4_no_repository_flow :
    (∀ (ctx : IssueContext) (exec : IssueContext → ClaudeTaskResult),
      ctx.repository = none →
        processClaudeRequest (.ok ctx) exec = ([.acknowledgment, .noRepository], false)) ∧
    (∀ (ctx : IssueContext) (git : GitEnv) (code : Int) (t : Nat) (out err : String),
      ctx.repository = none → t < claudeTimeoutMs →
        localExecuteTask ctx git (.closes code t out err) =
          { result := parseClaudeOutput out
            workspaceRemoved := jsTruthy (parseClaudeOutput out).success
            sigtermSent := false }) ∧
    (∀ (ctx : IssueContext) (git : GitEnv) (proc : ProcBehavior),
      ctx.repository = none →
        executeClaudeTask ctx git proc =
          { result := errResult "No repository configured"
            workspaceRemoved := false
            sigtermSent := false }) := by
  refine ⟨?_, ?_, ?_⟩
  · intro ctx exec h
    simp only [processClaudeRequest, h]
  · intro ctx git code t out err h ht
    simp only [localExecuteTask, h, runClaudeCode]
    rw [if_pos ht]
  · intro ctx git proc h
    simp only [executeClaudeTask, h]

/-- Witness for claim C4 at a concrete standalone context. -/
theorem claim4_witness :
    processClaudeRequest
      (.ok { issue := { id := "i", identifier := "ENG-2", title := "t", description := "",
                        url := "u", branchName := none, priority := none, state := none,
                        teamKey := none, labels := [] }
             comments := []
             triggerComment := { id := "c", body := "b", author := "a", instruction := "i" }
             repository := none })
      (fun _ => errResult "unused") = ([.acknowledgment, .noRepository], false) ∧
    localExecuteTask
      { issue := { id := "i", identifier := "ENG-2", title := "t", description := "",
                   url := "u", branchName := none, priority := none, state := none,
                   teamKey := none, labels := [] }
        comments := []
        triggerComment := { id := "c", body := "b", author := "a", instruction := "i" }
        repository := none }
      {} (.closes 0 1000 "done" "") =
      { result := parseClaudeOutput "done"
        workspaceRemoved := jsTruthy (parseClaudeOutput "done").success
        sigtermSent := false } ∧
    executeClaudeTask
      { issue := { id := "i", identifier := "ENG-2", title := "t", description := "",
                   url := "u", branchName := none, priority := none, state := none,
                   teamKey := none, labels := [] }
        comments := []
        triggerComment := { id := "c", body := "b", author := "a", instruction := "i" }
        repository := none }
      {} (.closes 0 1000 "done" "") =
      { result := errResult "No repository configured"
        workspaceRemoved := false
        sigtermSent := false } := by
  refine ⟨?_, ?_, ?_⟩
  · exact claim4_no_repository_flow.1 _ _ rfl
  · exact claim4_no_repository_flow.2.1 _ {} 0 1000 "done" "" rfl (by decide)
  · exact claim4_no_repository_flow.2.2 _ {} _ rfl

/-! ## Claim C1 -/

/-- Counterexample to claim C1 as stated: when the fenced block is
present but its content fails to parse as JSON, the parser does not
return a failed result — it falls through to the URL heuristic, which
here reports success.  The claim requires a false success flag whenever
the block fails to parse. -/
theorem claim1_counterexample :
    jsonBlockCapture "```json\nnot json\n``` https://github.com/a/b/pull/1"
      = some "not json" ∧
    jsonParse "not json" = none ∧
    (parseClaudeOutput "```json\nnot json\n``` https://github.com/a/b/pull/1").success
      = Json.jbool true := by
  exact ⟨by decide, by decide, by decide⟩

/-- Claim C1 as amended: when the first fenced `json` block parses to a
non-null JSON value, its fields (`success` through `error`) are copied
verbatim onto the returned result, with `success` defaulting to `false`
exactly when the field is absent or null; when the block content fails
to parse, the parser falls through to the remaining heuristics (URL
sniffing, then token sniffing), whose verdict may be a success. -/
theorem claim1_json_block_mapping :
    (∀ (out content : String) (j : Json),
      jsonBlockCapture out = some content →
      jsonParse content = some j →
      j ≠ Json.jnull →
        (parseClaudeOutput out).branch = jsonGetField j "branch" ∧
        (parseClaudeOutput out).prUrl = jsonGetField j "prUrl" ∧
        (parseClaudeOutput out).summary = jsonGetField j "summary" ∧
        (parseClaudeOutput out).assumptions = jsonGetField j "assumptions" ∧
        (parseClaudeOutput out).questions = jsonGetField j "questions" ∧
        (parseClaudeOutput out).error = jsonGetField j "error" ∧
        ((jsonGetField j "success" = none ∨ jsonGetField j "success" = some Json.jnull) →
          (parseClaudeOutput out).success = Json.jbool false) ∧
        (∀ v, jsonGetField j "success" = some v → v ≠ Json.jnull →
          (parseClaudeOutput out).success = v)) ∧
    (∀ (out content : String),
      jsonBlockCapture out = some content →
      jsonParse content = none →
        parseClaudeOutput out = parseClaudeOutputFallback out) := by
  constructor
  · intro out content j h1 h2 hj
    have key : parseClaudeOutput out =
        { success := successOfField (jsonGetField j "success")
          branch := jsonGetField j "branch"
          prUrl := jsonGetField j "prUrl"
          summary := jsonGetField j "summary"
          assumptions := jsonGetField j "assumptions"
          questions := jsonGetField j "questions"
          error := jsonGetField j "error" } := by
      cases j with
      | jnull => exact absurd rfl hj
      | jbool b => simp only [parseClaudeOutput, h1, h2]
      | jnum n => simp only [parseClaudeOutput, h1, h2]
      | jstr s => simp only [parseClaudeOutput, h1, h2]
      | jarr xs => simp only [parseClaudeOutput, h1, h2]
      | jobj fs => simp only [parseClaudeOutput, h1, h2]
    refine ⟨by rw [key], by rw [key], by rw [key], by rw [key], by rw [key],
      by rw [key], ?_, ?_⟩
    · intro h
      rw [key]
      cases h with
      | inl h => simp only [h, successOfField]
      | inr h => simp only [h, successOfField]
    · intro v hv hvn
      rw [key]
      simp only [hv]
      cases v with
      | jnull => exact absurd rfl hvn
      | jbool b => rfl
      | jnum n => rfl
      | jstr s => rfl
      | jarr xs => rfl
      | jobj fs => rfl
  · intro out content h1 h2
    simp only [parseClaudeOutput, h1, h2]

/-- Witness for claim C1: a block with a `summary` field and no
`success` field maps the summary and defaults success to false; an
unparseable block falls through to the heuristics. -/
theorem claim1_witness :
    (parseClaudeOutput "```json\n\x7b\"summary\": \"x\"\x7d\n```").summary
      = jsonGetField (Json.objOf [("summary", Json.jstr "x")]) "summary" ∧
    (parseClaudeOutput "```json\n\x7b\"summary\": \"x\"\x7d\n```").success
      = Json.jbool false ∧
    parseClaudeOutput "```json\nbad\n```" = parseClaudeOutputFallback "```json\nbad\n```" := by
  refine ⟨?_, ?_, ?_⟩
  · exact (claim1_json_block_mapping.1 _ "\x7b\"summary\": \"x\"\x7d"
      (Json.objOf [("summary", Json.jstr "x")]) (by decide) (by decide) (by decide)).2.2.1
  · exact (claim1_json_block_mapping.1 _ "\x7b\"summary\": \"x\"\x7d"
      (Json.objOf [("summary", Json.jstr "x")]) (by decide) (by decide)
      (by decide)).2.2.2.2.2.2.1 (Or.inl (by decide))
  · exact claim1_json_block_mapping.2 _ "bad" (by decide) (by decide)

/-! ## Claim C2 -/

theorem foldl_length_eq {α : Type} (f : List Nat → α → List Nat)
    (hf : ∀ st a, (f st a).length = st.length) :
    ∀ (l : List α) (st : List Nat), (l.foldl f st).length = st.length := by
  intro l
  induction l with
  | nil => intro st; rfl
  | cons x xs ih =>
    intro st
    rw [List.foldl_cons, ih, hf]

theorem compressBlock_length (h b : List Nat) :
    (compressBlock h b).length = h.length := by
  rw [compressBlock, List.length_zipWith]
  have hfold := foldl_length_eq
    (fun st i =>
      match st with
      | [a, b2, c, d, e, f, g, hh] =>
        let t1 := (hh + bsig1 e + shaCh e f g + (shaK.toArray).getD i 0 +
          (shaSchedule b).getD i 0) &&& u32mask
        let t2 := (bsig0 a + shaMaj a b2 c) &&& u32mask
        [(t1 + t2) &&& u32mask, a, b2, c, (d + t1) &&& u32mask, e, f, g]
      | other => other)
    (by
      intro st a
      dsimp only
      split
      · simp
      · rfl)
    (List.range 64) h
  rw [hfold]
  omega

theorem sha256Blocks_length : ∀ (fuel : Nat) (h bs : List Nat),
    (sha256Blocks fuel h bs).length = h.length := by
  intro fuel
  induction fuel with
  | zero =>
    intro h bs
    cases bs with
    | nil => rfl
    | cons b rest => rfl
  | succ f ih =>
    intro h bs
    cases bs with
    | nil => rfl
    | cons b rest =>
      rw [show sha256Blocks (f + 1) h (b :: rest)
          = sha256Blocks f (compressBlock h ((b :: rest).take 64)) ((b :: rest).drop 64)
        from rfl, ih, compressBlock_length]

theorem foldr_be32_length : ∀ l : List Nat,
    (l.foldr (fun wd acc => be32 wd ++ acc) []).length = 4 * l.length := by
  intro l
  induction l with
  | nil => rfl
  | cons x xs ih =>
    rw [List.foldr_cons, List.length_append, ih,
      (show (be32 x).length = 4 from rfl)]
    simp only [List.length_cons]
    ring

theorem sha256_length (msg : List Nat) : (sha256 msg).length = 32 := by
  rw [sha256, foldr_be32_length, sha256Blocks_length]
  rfl

theorem bytesToHex_data_length (bs : List Nat) :
    (bytesToHex bs).data.length = 2 * bs.length := by
  rw [bytesToHex]
  show (bs.foldr (fun b acc => hexDigit (b / 16) :: hexDigit (b % 16) :: acc) []).length
    = 2 * bs.length
  induction bs with
  | nil => rfl
  | cons x xs ih =>
    rw [List.foldr_cons]
    simp only [List.length_cons]
    rw [ih]
    ring

theorem hmacHexStr_data_length (k m : String) :
    (hmacHexStr k m).data.length = 64 := by
  rw [hmacHexStr, bytesToHex_data_length, hmacSha256, sha256_length]

/-- Counterexample to claim C2 as stated: the middleware digests
`JSON.stringify(req.body)`, the re-serialization of the parsed body,
not the raw request body.  The two raw bodies below differ in exactly
one byte (a space versus a tab inside insignificant JSON whitespace),
yet both parse and re-serialize identically, so the same signature
header is accepted for both — the single-byte mutation does not change
the outcome to rejection. -/
theorem claim2_counterexample :
    ("\x7b\"a\": 1\x7d" : String) ≠ "\x7b\"a\":\t1\x7d" ∧
    ("\x7b\"a\": 1\x7d" : String).data.length = ("\x7b\"a\":\t1\x7d" : String).data.length ∧
    (List.zip ("\x7b\"a\": 1\x7d" : String).data ("\x7b\"a\":\t1\x7d" : String).data).countP
      (fun p => p.1 != p.2) = 1 ∧
    (webhookRoute (some "whsec") "\x7b\"a\": 1\x7d"
      (some (hmacHexStr "whsec" "\x7b\"a\":1\x7d"))).isHandled = true ∧
    (webhookRoute (some "whsec") "\x7b\"a\":\t1\x7d"
      (some (hmacHexStr "whsec" "\x7b\"a\":1\x7d"))).isHandled = true := by
  refine ⟨by decide, by decide, by decide, ?_, ?_⟩
  · have h : jsonParse "\x7b\"a\": 1\x7d" = some (Json.objOf [("a", Json.jnum 1)]) := by
      decide
    have h2 : jsonStringify (Json.objOf [("a", Json.jnum 1)]) = "\x7b\"a\":1\x7d" := by
      decide
    simp [webhookRoute, h, verifyWebhookSignature, h2, RouteResult.isHandled]
  · have h : jsonParse "\x7b\"a\":\t1\x7d" = some (Json.objOf [("a", Json.jnum 1)]) := by
      decide
    have h2 : jsonStringify (Json.objOf [("a", Json.jnum 1)]) = "\x7b\"a\":1\x7d" := by
      decide
    simp [webhookRoute, h, verifyWebhookSignature, h2, RouteResult.isHandled]

/-- Claim C2 as amended: with a nonempty secret configured and a body
accepted by the JSON body parser, the request reaches classification
exactly when the header equals the hex HMAC-SHA256 (under the secret)
of the re-serialization `JSON.stringify(req.body)` of the parsed body;
a missing header yields a 401 missing-signature response and a
mismatched digest a 401 invalid-signature response, neither reaching
classification. -/
theorem claim2_signature_verification :
    ∀ (s rawBody : String) (body : Json) (header : Option String),
      s ≠ "" →
      jsonParse rawBody = some body →
        ((webhookRoute (some s) rawBody header).isHandled = true ↔
          header = some (hmacHexStr s (jsonStringify body))) ∧
        (header = none →
          webhookRoute (some s) rawBody header =
            .rejected { status := 401
                        body := Json.objOf [("error", Json.jstr "Missing signature")] }) ∧
        (∀ sig, header = some sig → sig ≠ hmacHexStr s (jsonStringify body) →
          webhookRoute (some s) rawBody header =
            .rejected { status := 401
                        body := Json.objOf [("error", Json.jstr "Invalid signature")] }) := by
  intro s rawBody body header hs hp
  have hsb : (s == "") = false := by simpa using hs
  cases header with
  | none =>
    refine ⟨?_, ?_, ?_⟩
    · simp [webhookRoute, hp, verifyWebhookSignature, hsb, RouteResult.isHandled]
    · intro _
      simp [webhookRoute, hp, verifyWebhookSignature, hsb]
    · intro sig hsig
      cases hsig
  | some sig =>
    by_cases hsig : sig = hmacHexStr s (jsonStringify body)
    · subst hsig
      refine ⟨?_, ?_, ?_⟩
      · simp [webhookRoute, hp, verifyWebhookSignature, hsb, RouteResult.isHandled]
      · intro h
        cases h
      · intro sig2 h hne
        cases h
        exact absurd rfl hne
    · have hsigb : (sig == hmacHexStr s (jsonStringify body)) = false := by
        simpa using hsig
      refine ⟨?_, ?_, ?_⟩
      · simp [webhookRoute, hp, verifyWebhookSignature, hsb, hsigb,
          RouteResult.isHandled, hsig]
      · intro h
        cases h
      · intro sig2 h _
        cases h
        simp [webhookRoute, hp, verifyWebhookSignature, hsb, hsigb]

/-- Witness for claim C2: the matching digest passes to the handler, a
missing header and a wrong header are rejected with 401 responses. -/
theorem claim2_witness :
    (webhookRoute (some "whsec") "\x7b\"a\": 1\x7d"
      (some (hmacHexStr "whsec"
        (jsonStringify (Json.objOf [("a", Json.jnum 1)]))))).isHandled = true ∧
    webhookRoute (some "whsec") "\x7b\"a\": 1\x7d" none =
      .rejected { status := 401
                  body := Json.objOf [("error", Json.jstr "Missing signature")] } ∧
    webhookRoute (some "whsec") "\x7b\"a\": 1\x7d" (some "bad") =
      .rejected { status := 401
                  body := Json.objOf [("error", Json.jstr "Invalid signature")] } := by
  refine ⟨?_, ?_, ?_⟩
  · exact ((claim2_signature_verification "whsec" _ (Json.objOf [("a", Json.jnum 1)]) _
      (by decide) (by decide)).1).mpr rfl
  · exact (claim2_signature_verification "whsec" _ (Json.objOf [("a", Json.jnum 1)]) none
      (by decide) (by decide)).2.1 rfl
  · exact (claim2_signature_verification "whsec" _ (Json.objOf [("a", Json.jnum 1)])
      (some "bad") (by decide) (by decide)).2.2 "bad" rfl
      (by
        intro hbad
        have hlen := congrArg (fun s => s.data.length) hbad
        dsimp only at hlen
        rw [hmacHexStr_data_length] at hlen
        exact absurd hlen (by decide))

/-! ## Claim C7 -/

/-- The fenced result block of claim C7. -/
def c7block : String := "```json\n\x7b\"success\": true, \"summary\": \"x\"\x7d\n```"

theorem findSubstrIdx_zero_of_isPrefixOf {n w : List Char}
    (h : n.isPrefixOf w = true) : findSubstrIdx n w = some 0 := by
  cases w with
  | nil =>
    cases n with
    | nil => rfl
    | cons p ps => simp [List.isPrefixOf] at h
  | cons x rest => rw [findSubstrIdx, if_pos h]

theorem isPrefixOf_drop_one_of_cons {n : List Char} {x : Char} {rest : List Char}
    (h : n.isPrefixOf (x :: rest) = true) : (n.drop 1).isPrefixOf rest = true := by
  cases n with
  | nil => simp [List.isPrefixOf]
  | cons p ps =>
    simp only [List.isPrefixOf, Bool.and_eq_true] at h
    exact h.2

theorem c7_no_fence_means_no_match_mid : ∀ (a c : List Char),
    findSubstrIdx "```".data a = none → a ≠ [] →
    "```json".data.isPrefixOf (a ++ (c7block.data ++ c)) = false := by
  intro a c h hne
  cases hbp : "```json".data.isPrefixOf (a ++ (c7block.data ++ c)) with
  | false => rfl
  | true =>
    exfalso
    by_cases hlen : 3 ≤ a.length
    · have h3 : "```".data.isPrefixOf (a ++ (c7block.data ++ c)) = true := by
        have hsub : "```".data <+: "```json".data :=
          List.isPrefixOf_iff_prefix.mp (by decide)
        exact List.isPrefixOf_iff_prefix.mpr
          (hsub.trans (List.isPrefixOf_iff_prefix.mp hbp))
      rw [isPrefixOf_append_of_le (c7block.data ++ c)
        (by have h3l : ("```".data).length = 3 := by decide
            omega)] at h3
      rw [findSubstrIdx_zero_of_isPrefixOf h3] at h
      cases h
    · cases a with
      | nil => exact hne rfl
      | cons x a2 =>
        cases a2 with
        | nil =>
          rw [List.singleton_append] at hbp
          have h6 := isPrefixOf_drop_one_of_cons hbp
          rw [(by decide : ("```json".data.drop 1) = "``json".data)] at h6
          rw [isPrefixOf_append_of_le c (by decide)] at h6
          exact absurd h6 (by decide)
        | cons y a3 =>
          cases a3 with
          | nil =>
            rw [List.cons_append, List.singleton_append] at hbp
            have h6a := isPrefixOf_drop_one_of_cons hbp
            have h6 := isPrefixOf_drop_one_of_cons h6a
            rw [(by decide : (("```json".data.drop 1).drop 1) = "`json".data)] at h6
            rw [isPrefixOf_append_of_le c (by decide)] at h6
            exact absurd h6 (by decide)
          | cons z a4 =>
            simp only [List.length_cons] at hlen
            omega

theorem c7_find_at_boundary : ∀ (a c : List Char),
    findSubstrIdx "```".data a = none →
    findSubstrIdx "```json".data (a ++ (c7block.data ++ c)) = some a.length := by
  intro a
  induction a with
  | nil =>
    intro c _
    rw [List.nil_append]
    have hp : "```json".data.isPrefixOf (c7block.data ++ c) = true := by
      rw [isPrefixOf_append_of_le c (by decide)]
      decide
    rw [findSubstrIdx_zero_of_isPrefixOf hp]
    rfl
  | cons x a2 ih =>
    intro c h
    have h2 := findSubstrIdx_none_tail h
    have hs := c7_no_fence_means_no_match_mid (x :: a2) c h (by simp)
    rw [List.cons_append] at hs
    rw [List.cons_append, findSubstrIdx, if_neg (by simp [hs]), ih c h2]
    simp

/-- Counterexample to claim C7 as stated: the block `` ```json ``
`` \x7b"success": true, "summary": "x"\x7d `` `` ``` `` is embedded in
the console text, but an earlier fenced block is matched first, its
content fails to parse, and the cascade reports a failure — not
`\x7bsuccess:true, summary:"x"\x7d`. -/
theorem claim7_counterexample :
    containsSubstr ("```json\nnope\n```\n" ++ c7block) c7block = true ∧
    (parseClaudeOutput ("```json\nnope\n```\n" ++ c7block)).success = Json.jbool false := by
  exact ⟨by decide, by decide⟩

/-- Claim C7 as amended: for every console output in which the block is
embedded with no fence (no backtick run `` ``` ``) anywhere in the
preceding text, parsing yields success `true` and summary `"x"`,
whatever the following text is. -/
theorem claim7_embedded_json_block :
    ∀ pre suf : String, containsSubstr pre "```" = false →
      (parseClaudeOutput (pre ++ c7block ++ suf)).success = Json.jbool true ∧
      (parseClaudeOutput (pre ++ c7block ++ suf)).summary = some (Json.jstr "x") := by
  intro pre suf h
  have hnone : findSubstrIdx "```".data pre.data = none := by
    cases hf : findSubstrIdx "```".data pre.data with
    | none => rfl
    | some k =>
      rw [containsSubstr, hf] at h
      cases h
  have hdata : (pre ++ c7block ++ suf).data = pre.data ++ (c7block.data ++ suf.data) := by
    rw [String.data_append, String.data_append, List.append_assoc]
  have h7 : findSubstrIdx "```json".data (pre ++ c7block ++ suf).data
      = some pre.data.length := by
    rw [hdata]
    exact c7_find_at_boundary pre.data suf.data hnone
  have hdrop : (pre ++ c7block ++ suf).data.drop (pre.data.length + 7) =
      "\n\x7b\"success\": true, \"summary\": \"x\"\x7d\n```".data ++ suf.data := by
    rw [hdata, List.drop_append, List.drop_append_of_le_length (by decide)]
    rw [(by decide : c7block.data.drop 7
      = "\n\x7b\"success\": true, \"summary\": \"x\"\x7d\n```".data)]
  have h3 : findSubstrIdx "```".data
      ("\n\x7b\"success\": true, \"summary\": \"x\"\x7d\n```".data ++ suf.data)
      = some 35 :=
    findSubstrIdx_append_of_some _ (by decide)
  have htake : ("\n\x7b\"success\": true, \"summary\": \"x\"\x7d\n```".data
      ++ suf.data).take 35
      = "\n\x7b\"success\": true, \"summary\": \"x\"\x7d\n".data := by
    rw [List.take_append_of_le_length (by decide)]
    decide
  have hcap : jsonBlockCapture (pre ++ c7block ++ suf)
      = some "\x7b\"success\": true, \"summary\": \"x\"\x7d" := by
    simp only [jsonBlockCapture, h7, hdrop, h3, htake]
    decide
  have hparse : jsonParse "\x7b\"success\": true, \"summary\": \"x\"\x7d"
      = some (Json.jobj (.cons "success" (.jbool true)
          (.cons "summary" (.jstr "x") .nil))) := by decide
  constructor
  · simp only [parseClaudeOutput, hcap, hparse]
    decide
  · simp only [parseClaudeOutput, hcap, hparse]
    decide

/-- Witness for claim C7 at concrete fence-free surrounding text. -/
theorem claim7_witness :
    (parseClaudeOutput ("before " ++ c7block ++ " after")).success = Json.jbool true ∧
    (parseClaudeOutput ("before " ++ c7block ++ " after")).summary
      = some (Json.jstr "x") :=
  claim7_embedded_json_block "before " " after" (by decide)

end CLinear
